import Mathlib

/-!
Verification of the color-the-map track ingestion pipeline.

This file is a shallow embedding, in Lean 4, of the Python backend of the
repository (`src/backend/...`): the GPX feature extraction
(`services/gpx_parser.py`), the geometry compression and the track/map
store operations (`services/track_service.py`, `services/map_service.py`)
and the content-addressed blob storage (`services/storage_service.py`),
together with proofs of the behavioural properties stated in the
specification.

Modelling conventions:
* Python floats are modelled as `ℚ` (exact arithmetic; the properties under
  scrutiny are structural, not about rounding).
* timestamps (`datetime` values) are modelled as `ℚ` seconds, so that
  `(t2 - t1).total_seconds()` is plain subtraction.
* the haversine distance (`GPXParser._calculate_segment_distances` applies
  trigonometric functions to every consecutive coordinate pair) is modelled
  by an abstract pairwise distance function `dist : ℚ × ℚ → ℚ × ℚ → ℚ`;
  every theorem about the speed pipeline is proved for an arbitrary such
  function, so it holds in particular for the haversine formula.
* SQLAlchemy tables are modelled as lists of rows, a `session.execute` of a
  select/delete/update statement as the corresponding list traversal.
* Python `bytes` are modelled as `List Nat` (byte values), `str` content as
  `List Char` with an explicit UTF-8 encoder.
-/

/-! ## Geometry compression (`TrackService.upload_track`, lines 60-69)

`reduced_coordinates = [list(coord) for coord in gpx_data.coordinates[::2]]`
and, when `gpx_data.segment_speeds` is non-empty,
`reduced_speeds = [(speeds[i] + speeds[i+1]) / 2
                   for i in range(0, len(speeds) - 1, 2)][: len(reduced_coordinates) - 1]`.
-/

/-- `xs[::2]`: every other element starting at index 0. -/
def everyOther {α : Type} : List α → List α
  | [] => []
  | [a] => [a]
  | a :: _ :: rest => a :: everyOther rest

/-- `[(speeds[i] + speeds[i+1]) / 2 for i in range(0, len(speeds) - 1, 2)]`:
the loop body runs while `i + 1 < len(speeds)`, i.e. over the complete
adjacent pairs `(speeds[0], speeds[1]), (speeds[2], speeds[3]), …`; a
dangling last element is dropped. -/
def pairAverages : List ℚ → List ℚ
  | [] => []
  | [_] => []
  | a :: b :: rest => (a + b) / 2 :: pairAverages rest

/-- The reduced coordinate sequence stored on the Track row
(`gpx_data.coordinates[::2]`). -/
def reduceCoordinates (coords : List (ℚ × ℚ)) : List (ℚ × ℚ) :=
  everyOther coords

/-- The reduced speed sequence stored on the Track row: `None` when
`gpx_data.segment_speeds` is empty (Python truthiness of the list), else the
pair averages truncated to `len(reduced_coordinates) - 1`. -/
def reduceSpeeds (speeds : List ℚ) (nReducedCoords : Nat) : Option (List ℚ) :=
  if speeds.isEmpty then none
  else some ((pairAverages speeds).take (nReducedCoords - 1))

theorem everyOther_length {α : Type} (l : List α) :
    (everyOther l).length = (l.length + 1) / 2 := by
  induction l using everyOther.induct with
  | case1 => simp [everyOther]
  | case2 => simp [everyOther]
  | case3 a b rest ih =>
    simp only [everyOther, List.length_cons, ih]
    omega

theorem everyOther_getD {α : Type} (l : List α) (i : Nat) (d : α)
    (h : i < (everyOther l).length) :
    (everyOther l).getD i d = l.getD (2 * i) d := by
  induction l using everyOther.induct generalizing i with
  | case1 => simp [everyOther] at h
  | case2 a =>
    simp [everyOther] at h
    subst h
    simp [everyOther]
  | case3 a b rest ih =>
    match i with
    | 0 => simp [everyOther]
    | Nat.succ j =>
      have hj : j < (everyOther rest).length := by
        simpa [everyOther] using h
      have h2j : 2 * (j + 1) = 2 * j + 1 + 1 := by omega
      simp only [everyOther, h2j, List.getD_cons_succ]
      exact ih j hj

theorem pairAverages_length (l : List ℚ) :
    (pairAverages l).length = l.length / 2 := by
  induction l using pairAverages.induct with
  | case1 => simp [pairAverages]
  | case2 => simp [pairAverages]
  | case3 a b rest ih =>
    simp only [pairAverages, List.length_cons, ih]
    omega

theorem pairAverages_getD (l : List ℚ) (i : Nat)
    (h : i < (pairAverages l).length) :
    (pairAverages l).getD i 0 = (l.getD (2 * i) 0 + l.getD (2 * i + 1) 0) / 2 := by
  induction l using pairAverages.induct generalizing i with
  | case1 => simp [pairAverages] at h
  | case2 => simp [pairAverages] at h
  | case3 a b rest ih =>
    match i with
    | 0 => simp [pairAverages]
    | Nat.succ j =>
      have hj : j < (pairAverages rest).length := by
        simpa [pairAverages] using h
      have h2j : 2 * (j + 1) = 2 * j + 1 + 1 := by omega
      have h2j' : 2 * (j + 1) + 1 = 2 * j + 1 + 1 + 1 := by omega
      simp only [pairAverages, h2j, h2j', List.getD_cons_succ]
      exact ih j hj

/-- C5: the compression step outputs the points at even indices, `⌈N/2⌉` of
them; with a non-empty speed sequence of length `N - 1` the reduced speeds
are the adjacent-pair averages `(speeds[2i] + speeds[2i+1]) / 2`, exactly
`len(reduced_coordinates) - 1` of them; with an empty speed sequence no
reduced speed sequence is produced. -/
theorem upload_compression_spec
    (coords : List (ℚ × ℚ)) (speeds : List ℚ) (N : Nat)
    (hN : coords.length = N) (hN1 : 1 ≤ N) (hs : speeds.length = N - 1) :
    ((reduceCoordinates coords).length = (N + 1) / 2
      ∧ ∀ i < (reduceCoordinates coords).length,
          (reduceCoordinates coords).getD i (0, 0) = coords.getD (2 * i) (0, 0))
    ∧ (speeds ≠ [] →
        ∃ r, reduceSpeeds speeds (reduceCoordinates coords).length = some r
          ∧ r.length = (reduceCoordinates coords).length - 1
          ∧ ∀ i < r.length,
              r.getD i 0 = (speeds.getD (2 * i) 0 + speeds.getD (2 * i + 1) 0) / 2)
    ∧ (speeds = [] → reduceSpeeds speeds (reduceCoordinates coords).length = none) := by
  have hlen : (reduceCoordinates coords).length = (N + 1) / 2 := by
    simpa [reduceCoordinates, hN] using everyOther_length coords
  refine ⟨⟨hlen, ?_⟩, ?_, ?_⟩
  · intro i h
    exact everyOther_getD coords i (0, 0) h
  · intro hne
    have hpa : (pairAverages speeds).length = (N - 1) / 2 := by
      simpa [hs] using pairAverages_length speeds
    have hexact : (pairAverages speeds).length = (reduceCoordinates coords).length - 1 := by
      omega
    refine ⟨(pairAverages speeds).take ((reduceCoordinates coords).length - 1),
      ?_, ?_, ?_⟩
    · simp [reduceSpeeds, hne]
    · simp only [List.length_take]
      omega
    · intro i h
      have hi : i < (pairAverages speeds).length := by
        simp only [List.length_take] at h
        omega
      have hget : ((pairAverages speeds).take
          ((reduceCoordinates coords).length - 1)).getD i 0 =
          (pairAverages speeds).getD i 0 := by
        simp only [List.length_take] at h
        have hlt : i < (reduceCoordinates coords).length - 1 := by omega
        rw [List.getD_eq_getElem?_getD, List.getD_eq_getElem?_getD,
          List.getElem?_take_of_lt hlt]
      rw [hget]
      exact pairAverages_getD speeds i hi
  · intro he
    simp [reduceSpeeds, he]

/-- Witness for `upload_compression_spec` at a concrete 5-point track with
speed sequence `[1, 2, 3, 4]`. -/
theorem upload_compression_spec_witness :
    ([((0 : ℚ), (0 : ℚ)), (1, 0), (2, 0), (3, 0), (4, 0)].length = 5 ∧ 1 ≤ 5
      ∧ [(1 : ℚ), 2, 3, 4].length = 5 - 1)
    ∧ (((reduceCoordinates [((0 : ℚ), (0 : ℚ)), (1, 0), (2, 0), (3, 0), (4, 0)]).length
          = (5 + 1) / 2
      ∧ ∀ i < (reduceCoordinates
            [((0 : ℚ), (0 : ℚ)), (1, 0), (2, 0), (3, 0), (4, 0)]).length,
          (reduceCoordinates
            [((0 : ℚ), (0 : ℚ)), (1, 0), (2, 0), (3, 0), (4, 0)]).getD i (0, 0) =
            [((0 : ℚ), (0 : ℚ)), (1, 0), (2, 0), (3, 0), (4, 0)].getD (2 * i) (0, 0))
    ∧ ([(1 : ℚ), 2, 3, 4] ≠ [] →
        ∃ r, reduceSpeeds [(1 : ℚ), 2, 3, 4]
            (reduceCoordinates
              [((0 : ℚ), (0 : ℚ)), (1, 0), (2, 0), (3, 0), (4, 0)]).length = some r
          ∧ r.length = (reduceCoordinates
              [((0 : ℚ), (0 : ℚ)), (1, 0), (2, 0), (3, 0), (4, 0)]).length - 1
          ∧ ∀ i < r.length,
              r.getD i 0 = ([(1 : ℚ), 2, 3, 4].getD (2 * i) 0
                + [(1 : ℚ), 2, 3, 4].getD (2 * i + 1) 0) / 2)
    ∧ ([(1 : ℚ), 2, 3, 4] = [] →
        reduceSpeeds [(1 : ℚ), 2, 3, 4]
          (reduceCoordinates
            [((0 : ℚ), (0 : ℚ)), (1, 0), (2, 0), (3, 0), (4, 0)]).length = none)) :=
  ⟨⟨by decide, by decide, by decide⟩,
    upload_compression_spec
      [((0 : ℚ), (0 : ℚ)), (1, 0), (2, 0), (3, 0), (4, 0)]
      [(1 : ℚ), 2, 3, 4] 5 (by decide) (by decide) (by decide)⟩

/-! ## Speed statistics (`GPXParser._calculate_speed`, gpx_parser.py lines 84-118)

The source computes `segment_distances` by applying the haversine formula to
every consecutive coordinate pair (`_calculate_segment_distances`); the
formula itself is real-valued trigonometry, modelled here by an abstract
`dist` parameter applied to the same consecutive pairs.  `_calculate_speed`
then builds the per-segment speed array with a `valid_mask = durations > 0`,
divides only under the mask, and aggregates.  Assigning
`segment_speeds[valid_mask] = distances[valid_mask] / durations[valid_mask]`
raises a numpy `IndexError` when the mask length differs from the distances
length; that error outcome is modelled as `none`.  The `not np.any(valid_mask)`
early return happens before the mask is ever applied. -/

/-- Result dictionary of `_calculate_speed`:
`{"avg": .., "max": .., "min": .., "speeds": ..}`. -/
structure SpeedStats where
  avg : ℚ
  max : ℚ
  min : ℚ
  speeds : List ℚ
  deriving Repr, DecidableEq

/-- The consecutive pairs `(l[i], l[i+1])` of a list. -/
def consecutivePairs {α : Type} (l : List α) : List (α × α) :=
  l.zip l.tail

/-- `GPXParser._calculate_segment_distances`: empty for fewer than two
coordinates, else one `dist` value per consecutive coordinate pair. -/
def segmentDistances (dist : ℚ × ℚ → ℚ × ℚ → ℚ) (coords : List (ℚ × ℚ)) :
    List ℚ :=
  if coords.length < 2 then []
  else (consecutivePairs coords).map fun p => dist p.1 p.2

/-- `[(timestamps[i+1] - timestamps[i]).total_seconds()
     for i in range(len(timestamps) - 1)]`. -/
def segmentDurations (ts : List ℚ) : List ℚ :=
  (consecutivePairs ts).map fun p => p.2 - p.1

/-- `np.max` over a (nonempty) list; the `0` default is never reached in
`_calculate_speed` because the empty-mask case returns earlier. -/
def npMax : List ℚ → ℚ
  | [] => 0
  | a :: rest => rest.foldl max a

/-- `np.min` over a (nonempty) list. -/
def npMin : List ℚ → ℚ
  | [] => 0
  | a :: rest => rest.foldl min a

/-- `GPXParser._calculate_speed`. -/
def calcSpeed (dist : ℚ × ℚ → ℚ × ℚ → ℚ) (coords : List (ℚ × ℚ))
    (ts : List ℚ) : Option SpeedStats :=
  if coords.length < 2 ∨ ts.length < 2 then
    some ⟨0, 0, 0, []⟩
  else
    let dists := segmentDistances dist coords
    let durs := segmentDurations ts
    if !(durs.any fun d => decide (0 < d)) then
      some ⟨0, 0, 0, []⟩
    else if durs.length ≠ dists.length then
      none
    else
      let pairs := dists.zip durs
      let speeds := pairs.map fun p => if 0 < p.2 then p.1 / p.2 else 0
      let totalDistance := dists.sum
      let totalDuration := durs.sum
      let avgSpeed := if 0 < totalDuration then totalDistance / totalDuration else 0
      let validSpeeds := (pairs.filter fun p => decide (0 < p.2)).map
        fun p => p.1 / p.2
      some ⟨avgSpeed, npMax validSpeeds, npMin validSpeeds, speeds⟩

theorem consecutivePairs_length {α : Type} (l : List α) :
    (consecutivePairs l).length = l.length - 1 := by
  simp only [consecutivePairs, List.length_zip, List.length_tail]
  omega

theorem consecutivePairs_getD {α : Type} (l : List α) (i : Nat) (d : α)
    (h : i < (consecutivePairs l).length) :
    (consecutivePairs l).getD i (d, d) = (l.getD i d, l.getD (i + 1) d) := by
  have h1 : i < l.length := by
    have := consecutivePairs_length l
    omega
  have h2 : i + 1 < l.length := by
    have := consecutivePairs_length l
    omega
  have ht : i < l.tail.length := by
    rw [List.length_tail]
    omega
  rw [List.getD_eq_getElem _ _ h, List.getD_eq_getElem _ _ h1,
    List.getD_eq_getElem _ _ h2]
  simp only [consecutivePairs]
  rw [List.getElem_zip]
  congr 1
  rw [List.getElem_tail]

theorem segmentDurations_length (ts : List ℚ) :
    (segmentDurations ts).length = ts.length - 1 := by
  simp [segmentDurations, consecutivePairs_length]

theorem segmentDistances_length (dist : ℚ × ℚ → ℚ × ℚ → ℚ)
    (coords : List (ℚ × ℚ)) (h : 2 ≤ coords.length) :
    (segmentDistances dist coords).length = coords.length - 1 := by
  rw [segmentDistances, if_neg (by omega)]
  simp [consecutivePairs_length]

/-- Under the hypotheses `len(coords) = len(timestamps) = N ≥ 2` (one
timestamp per point), `_calculate_speed` reaches no error branch and its
result is fully determined: if some segment duration is positive it returns
the masked-division speed array with aggregate statistics, otherwise the
all-zero result with an empty speed list. -/
theorem calcSpeed_eq_of_ge_two (dist : ℚ × ℚ → ℚ × ℚ → ℚ)
    (coords : List (ℚ × ℚ)) (ts : List ℚ) (N : Nat)
    (hc : coords.length = N) (ht : ts.length = N) (hN : 2 ≤ N) :
    calcSpeed dist coords ts =
      (if (segmentDurations ts).any (fun d => decide (0 < d)) then
        some ⟨(if 0 < (segmentDurations ts).sum then
                 (segmentDistances dist coords).sum / (segmentDurations ts).sum
               else 0),
              npMax ((((segmentDistances dist coords).zip
                  (segmentDurations ts)).filter fun p => decide (0 < p.2)).map
                  fun p => p.1 / p.2),
              npMin ((((segmentDistances dist coords).zip
                  (segmentDurations ts)).filter fun p => decide (0 < p.2)).map
                  fun p => p.1 / p.2),
              ((segmentDistances dist coords).zip (segmentDurations ts)).map
                fun p => if 0 < p.2 then p.1 / p.2 else 0⟩
      else some ⟨0, 0, 0, []⟩) := by
  have hd : (segmentDistances dist coords).length = N - 1 :=
    (segmentDistances_length dist coords (by omega)).trans (by rw [hc])
  have hdur : (segmentDurations ts).length = N - 1 :=
    (segmentDurations_length ts).trans (by rw [ht])
  rw [calcSpeed, if_neg (by omega)]
  by_cases hany : (segmentDurations ts).any (fun d => decide (0 < d))
  · rw [if_pos hany]
    simp only [hany, Bool.not_true, Bool.false_eq_true, if_false]
    rw [if_neg (by omega)]
  · rw [if_neg hany]
    simp only [Bool.not_eq_true] at hany
    simp [hany]

theorem maskedSpeeds_getD (dists durs : List ℚ) (i : Nat)
    (hi : i < dists.length) (hi' : i < durs.length) :
    ((dists.zip durs).map fun p => if 0 < p.2 then p.1 / p.2 else 0).getD i 0 =
      if 0 < durs.getD i 0 then dists.getD i 0 / durs.getD i 0 else 0 := by
  have hz : i < ((dists.zip durs).map
      fun p => if 0 < p.2 then p.1 / p.2 else 0).length := by
    simp [List.length_zip]
    omega
  rw [List.getD_eq_getElem _ _ hz, List.getD_eq_getElem _ _ hi,
    List.getD_eq_getElem _ _ hi', List.getElem_map, List.getElem_zip]

/-- C6 (amended): with one timestamp per point and `N ≥ 2` coordinates,
`_calculate_speed` succeeds; if some segment has positive duration the
speed sequence has length `N - 1`, holds `distance/duration` on segments of
positive duration and `0` elsewhere, `max`/`min` aggregate only over the
positive-duration segment speeds, and `avg` is `total_distance /
total_duration` when the total duration is positive and `0` otherwise (in
particular `0` when it is zero); if no segment has positive duration the
result is all zeros with an empty speed sequence. -/
theorem calculate_speed_spec (dist : ℚ × ℚ → ℚ × ℚ → ℚ)
    (coords : List (ℚ × ℚ)) (ts : List ℚ) (N : Nat)
    (hc : coords.length = N) (ht : ts.length = N) (hN : 2 ≤ N) :
    ∃ stats, calcSpeed dist coords ts = some stats
      ∧ ((∃ d ∈ segmentDurations ts, 0 < d) →
          stats.speeds.length = N - 1
          ∧ (∀ i < N - 1,
              stats.speeds.getD i 0 =
                if 0 < (segmentDurations ts).getD i 0 then
                  (segmentDistances dist coords).getD i 0 /
                    (segmentDurations ts).getD i 0
                else 0)
          ∧ stats.max = npMax ((((segmentDistances dist coords).zip
              (segmentDurations ts)).filter fun p => decide (0 < p.2)).map
              fun p => p.1 / p.2)
          ∧ stats.min = npMin ((((segmentDistances dist coords).zip
              (segmentDurations ts)).filter fun p => decide (0 < p.2)).map
              fun p => p.1 / p.2)
          ∧ stats.avg = (if 0 < (segmentDurations ts).sum then
              (segmentDistances dist coords).sum / (segmentDurations ts).sum
            else 0))
      ∧ ((∀ d ∈ segmentDurations ts, d ≤ 0) → stats = ⟨0, 0, 0, []⟩) := by
  have hd : (segmentDistances dist coords).length = N - 1 :=
    (segmentDistances_length dist coords (by omega)).trans (by rw [hc])
  have hdur : (segmentDurations ts).length = N - 1 :=
    (segmentDurations_length ts).trans (by rw [ht])
  rw [calcSpeed_eq_of_ge_two dist coords ts N hc ht hN]
  by_cases hany : (segmentDurations ts).any (fun d => decide (0 < d))
  · rw [if_pos hany]
    refine ⟨_, rfl, ?_, ?_⟩
    · intro _
      refine ⟨?_, ?_, rfl, rfl, rfl⟩
      · simp [List.length_zip]
        omega
      · intro i hi
        exact maskedSpeeds_getD _ _ i (by omega) (by omega)
    · intro hall
      rcases List.any_eq_true.mp hany with ⟨d, hd1, hd2⟩
      have := hall d hd1
      simp at hd2
      linarith
  · rw [if_neg hany]
    refine ⟨_, rfl, ?_, fun _ => rfl⟩
    intro ⟨d, hd1, hd2⟩
    exact absurd (List.any_eq_true.mpr ⟨d, hd1, by simpa using hd2⟩) hany

/-- Counterexample to C6 as stated: with coordinates `(0,0), (1,0), (2,0)`
(unit distance per segment under `dist`) and timestamps `0, 1, -1` — one per
point, so the claim's hypotheses hold — the total duration is `-1 ≠ 0`, the
code returns `avg = 0`, but the claim's formula `total_distance /
total_duration` gives `-2`. -/
theorem calculate_speed_claim_counterexample :
    ([((0 : ℚ), (0 : ℚ)), (1, 0), (2, 0)].length = 3
      ∧ [(0 : ℚ), 1, -1].length = 3 ∧ 2 ≤ 3)
    ∧ calcSpeed (fun _ _ => 1) [((0 : ℚ), (0 : ℚ)), (1, 0), (2, 0)]
        [(0 : ℚ), 1, -1] = some ⟨0, 1, 1, [1, 0]⟩
    ∧ (segmentDurations [(0 : ℚ), 1, -1]).sum ≠ 0
    ∧ (segmentDistances (fun _ _ => 1) [((0 : ℚ), (0 : ℚ)), (1, 0), (2, 0)]).sum /
        (segmentDurations [(0 : ℚ), 1, -1]).sum ≠ 0 := by
  refine ⟨⟨by decide, by decide, by decide⟩, ?_, ?_, ?_⟩
  · norm_num [calcSpeed, segmentDistances, segmentDurations, consecutivePairs,
      npMax, npMin]
  · norm_num [segmentDurations, consecutivePairs]
  · norm_num [segmentDistances, segmentDurations, consecutivePairs]

/-- Witness for `calculate_speed_spec` at three points with timestamps
`0, 1, 3` and unit segment distances. -/
theorem calculate_speed_spec_witness :
    ([((0 : ℚ), (0 : ℚ)), (1, 0), (2, 0)].length = 3
        ∧ [(0 : ℚ), 1, 3].length = 3 ∧ 2 ≤ 3)
    ∧ ∃ stats, calcSpeed (fun _ _ => 1) [((0 : ℚ), (0 : ℚ)), (1, 0), (2, 0)]
          [(0 : ℚ), 1, 3] = some stats
      ∧ ((∃ d ∈ segmentDurations [(0 : ℚ), 1, 3], 0 < d) →
          stats.speeds.length = 3 - 1
          ∧ (∀ i < 3 - 1,
              stats.speeds.getD i 0 =
                if 0 < (segmentDurations [(0 : ℚ), 1, 3]).getD i 0 then
                  (segmentDistances (fun _ _ => 1)
                      [((0 : ℚ), (0 : ℚ)), (1, 0), (2, 0)]).getD i 0 /
                    (segmentDurations [(0 : ℚ), 1, 3]).getD i 0
                else 0)
          ∧ stats.max = npMax ((((segmentDistances (fun _ _ => 1)
              [((0 : ℚ), (0 : ℚ)), (1, 0), (2, 0)]).zip
              (segmentDurations [(0 : ℚ), 1, 3])).filter
                fun p => decide (0 < p.2)).map fun p => p.1 / p.2)
          ∧ stats.min = npMin ((((segmentDistances (fun _ _ => 1)
              [((0 : ℚ), (0 : ℚ)), (1, 0), (2, 0)]).zip
              (segmentDurations [(0 : ℚ), 1, 3])).filter
                fun p => decide (0 < p.2)).map fun p => p.1 / p.2)
          ∧ stats.avg = (if 0 < (segmentDurations [(0 : ℚ), 1, 3]).sum then
              (segmentDistances (fun _ _ => 1)
                  [((0 : ℚ), (0 : ℚ)), (1, 0), (2, 0)]).sum /
                (segmentDurations [(0 : ℚ), 1, 3]).sum
            else 0))
      ∧ ((∀ d ∈ segmentDurations [(0 : ℚ), 1, 3], d ≤ 0) →
          stats = ⟨0, 0, 0, []⟩) :=
  ⟨⟨by decide, by decide, by decide⟩,
    calculate_speed_spec (fun _ _ => 1) [((0 : ℚ), (0 : ℚ)), (1, 0), (2, 0)]
      [(0 : ℚ), 1, 3] 3 (by decide) (by decide) (by decide)⟩

/-! ## Point extraction in `GPXParser.parse` (gpx_parser.py lines 30-56)

`parse` walks `<trk>/<trkseg>/<trkpt>` and appends, for every point, its
`(longitude, latitude)` to `coordinates`; `point.elevation` is appended to
`elevations` only when truthy (so `0.0` is dropped) and `point.time` only
when present (`datetime` objects are always truthy). -/

/-- One `<trkpt>`. -/
structure GpxPoint where
  longitude : ℚ
  latitude : ℚ
  elevation : Option ℚ
  time : Option ℚ
  deriving Repr, DecidableEq

/-- The `coordinates` list built by `parse`. -/
def trackCoordinates (pts : List GpxPoint) : List (ℚ × ℚ) :=
  pts.map fun p => (p.longitude, p.latitude)

/-- The `timestamps` list built by `parse` (`if point.time:` — only points
carrying a timestamp contribute). -/
def trackTimestamps (pts : List GpxPoint) : List ℚ :=
  pts.filterMap GpxPoint.time

/-- The `elevations` list built by `parse` (`if point.elevation:` — Python
truthiness drops both a missing and a `0.0` elevation). -/
def trackElevations (pts : List GpxPoint) : List ℚ :=
  pts.filterMap fun p => p.elevation.bind fun e => if e = 0 then none else some e

theorem trackTimestamps_length_of_all (pts : List GpxPoint)
    (h : ∀ p ∈ pts, p.time.isSome) :
    (trackTimestamps pts).length = pts.length := by
  induction pts with
  | nil => simp [trackTimestamps]
  | cons p rest ih =>
    have hp := h p (by simp)
    rcases Option.isSome_iff_exists.mp hp with ⟨t, ht⟩
    simp only [trackTimestamps, List.filterMap_cons, ht, List.length_cons]
    rw [show (trackTimestamps rest) = rest.filterMap GpxPoint.time from rfl] at ih
    rw [ih fun q hq => h q (by simp [hq])]

/-- C10: on a point list in which either every point carries a timestamp or
fewer than two do, the speed computation of `parse` is total (no numpy shape
error — modelled as `none` — is reachable), and every produced speed entry
is either `0` for a non-positive segment duration (no division performed) or
the quotient `distance/duration` with a strictly positive divisor. -/
theorem parse_speed_total (dist : ℚ × ℚ → ℚ × ℚ → ℚ) (points : List GpxPoint)
    (h : (∀ p ∈ points, p.time.isSome)
        ∨ (trackTimestamps points).length < 2) :
    ∃ stats, calcSpeed dist (trackCoordinates points) (trackTimestamps points)
        = some stats
      ∧ (stats.speeds = []
        ∨ (stats.speeds.length = (trackCoordinates points).length - 1
            ∧ ∀ i < stats.speeds.length,
                ((segmentDurations (trackTimestamps points)).getD i 0 ≤ 0 →
                    stats.speeds.getD i 0 = 0)
                ∧ (0 < (segmentDurations (trackTimestamps points)).getD i 0 →
                    stats.speeds.getD i 0 =
                      (segmentDistances dist (trackCoordinates points)).getD i 0 /
                        (segmentDurations (trackTimestamps points)).getD i 0))) := by
  set coords := trackCoordinates points with hcoords
  set ts := trackTimestamps points with hts
  by_cases hshort : coords.length < 2 ∨ ts.length < 2
  · refine ⟨⟨0, 0, 0, []⟩, ?_, Or.inl rfl⟩
    rw [calcSpeed, if_pos hshort]
  · push_neg at hshort
    have hcl : coords.length = points.length := by
      simp [hcoords, trackCoordinates]
    have htl : ts.length = points.length := by
      rcases h with hall | hlt
      · simpa [hts] using trackTimestamps_length_of_all points hall
      · omega
    have hN : 2 ≤ points.length := by omega
    rw [calcSpeed_eq_of_ge_two dist coords ts points.length hcl htl hN]
    have hd : (segmentDistances dist coords).length = points.length - 1 :=
      (segmentDistances_length dist coords (by omega)).trans (by rw [hcl])
    have hdur : (segmentDurations ts).length = points.length - 1 :=
      (segmentDurations_length ts).trans (by rw [htl])
    by_cases hany : (segmentDurations ts).any (fun d => decide (0 < d))
    · rw [if_pos hany]
      refine ⟨_, rfl, Or.inr ⟨?_, ?_⟩⟩
      · simp [List.length_zip]
        omega
      · intro i hi
        simp only [List.length_map, List.length_zip] at hi
        have hmask := maskedSpeeds_getD (segmentDistances dist coords)
          (segmentDurations ts) i (by omega) (by omega)
        constructor
        · intro hle
          rw [hmask, if_neg (by linarith)]
        · intro hpos
          rw [hmask, if_pos hpos]
    · rw [if_neg hany]
      exact ⟨_, rfl, Or.inl rfl⟩

/-- Witness for `parse_speed_total`: three points all carrying timestamps,
the middle segment with zero duration. -/
theorem parse_speed_total_witness :
    ((∀ p ∈ [⟨0, 0, none, some 0⟩, ⟨1, 0, none, some 0⟩,
        ⟨2, 0, none, (some 5 : Option ℚ)⟩], (GpxPoint.time p).isSome)
      ∨ (trackTimestamps [⟨0, 0, none, some 0⟩, ⟨1, 0, none, some 0⟩,
          ⟨2, 0, none, (some 5 : Option ℚ)⟩]).length < 2)
    ∧ ∃ stats, calcSpeed (fun _ _ => 1)
        (trackCoordinates [⟨0, 0, none, some 0⟩, ⟨1, 0, none, some 0⟩,
          ⟨2, 0, none, (some 5 : Option ℚ)⟩])
        (trackTimestamps [⟨0, 0, none, some 0⟩, ⟨1, 0, none, some 0⟩,
          ⟨2, 0, none, (some 5 : Option ℚ)⟩]) = some stats
      ∧ (stats.speeds = []
        ∨ (stats.speeds.length = (trackCoordinates [⟨0, 0, none, some 0⟩,
              ⟨1, 0, none, some 0⟩,
              ⟨2, 0, none, (some 5 : Option ℚ)⟩]).length - 1
            ∧ ∀ i < stats.speeds.length,
                ((segmentDurations (trackTimestamps [⟨0, 0, none, some 0⟩,
                      ⟨1, 0, none, some 0⟩,
                      ⟨2, 0, none, (some 5 : Option ℚ)⟩])).getD i 0 ≤ 0 →
                    stats.speeds.getD i 0 = 0)
                ∧ (0 < (segmentDurations (trackTimestamps [⟨0, 0, none, some 0⟩,
                      ⟨1, 0, none, some 0⟩,
                      ⟨2, 0, none, (some 5 : Option ℚ)⟩])).getD i 0 →
                    stats.speeds.getD i 0 =
                      (segmentDistances (fun _ _ => 1)
                          (trackCoordinates [⟨0, 0, none, some 0⟩,
                            ⟨1, 0, none, some 0⟩,
                            ⟨2, 0, none, (some 5 : Option ℚ)⟩])).getD i 0 /
                        (segmentDurations (trackTimestamps
                            [⟨0, 0, none, some 0⟩, ⟨1, 0, none, some 0⟩,
                              ⟨2, 0, none, (some 5 : Option ℚ)⟩])).getD i 0))) :=
  ⟨Or.inl (by decide),
    parse_speed_total (fun _ _ => 1)
      [⟨0, 0, none, some 0⟩, ⟨1, 0, none, some 0⟩,
        ⟨2, 0, none, (some 5 : Option ℚ)⟩]
      (Or.inl (by decide))⟩

/-! ## Relational state (`models/`, migration `2f2d4f3961be_add_multi_map_support`)

The `tracks` table is modelled after the schema installed by the most recent
migration (`2f2d4f3961be_add_multi_map_support.py`): the columns of
`models/track_model.py` plus the `map_id` foreign key and the unique index
`idx_tracks_map_hash (map_id, hash)` that the migration creates (it drops
`idx_tracks_user_hash`).  The ORM declaration in `models/track_model.py`
still shows the pre-migration state — no `map_id` column and
`Index("idx_tracks_user_hash", "user_id", "hash", unique=True)` — which
contradicts the migration, every query in `services/track_service.py`
(each one filters on `TrackModel.map_id`) and the test
`test_delete_preserves_gpx_when_shared_across_maps`; that discrepancy is
the subject of the cross-map dedup claim below.

The three columns mutable through the update allow-list (`visible`, `name`,
`activity_type`) are given the dynamic value type `PyValue`, since
`setattr(track_model, key, value)` stores whatever value the update payload
carries. -/

/-- A dynamically-typed Python attribute value. -/
inductive PyValue
  | vNone
  | vBool (b : Bool)
  | vStr (s : String)
  deriving Repr, DecidableEq

/-- One row of the `tracks` table (post-migration schema). -/
structure TrackRow where
  id : Nat
  userId : String
  mapId : Nat
  hash : String
  name : PyValue
  filename : String
  creator : Option String
  activityType : PyValue
  activityDate : ℚ
  uploadedAt : ℚ
  distanceMeters : ℚ
  durationSeconds : ℤ
  avgSpeedMs : ℚ
  maxSpeedMs : ℚ
  minSpeedMs : ℚ
  elevationGainMeters : ℚ
  elevationLossMeters : ℚ
  boundsMinLat : ℚ
  boundsMinLon : ℚ
  boundsMaxLat : ℚ
  boundsMaxLon : ℚ
  visible : PyValue
  coordinates : List (ℚ × ℚ)
  segmentSpeeds : Option (List ℚ)
  createdAt : ℚ
  updatedAt : ℚ
  deriving Repr, DecidableEq

/-- One row of the `maps` table (`models/map_model.py`). -/
structure MapRow where
  id : Nat
  userId : String
  name : String
  createdAt : ℚ
  updatedAt : ℚ
  deriving Repr, DecidableEq

/-- The relational store the services run against. -/
structure DB where
  maps : List MapRow
  tracks : List TrackRow
  deriving Repr, DecidableEq

/-- Referential integrity installed by the migration: `tracks.map_id` is a
foreign key into `maps` (`ondelete="CASCADE"`), and a track's owner is its
map's owner. -/
def WellFormedDB (db : DB) : Prop :=
  ∀ t ∈ db.tracks, ∃ m ∈ db.maps, m.id = t.mapId ∧ m.userId = t.userId

/-- `MapDeleteResult` of `services/map_service.py`. -/
structure MapDeleteResult where
  deleted : Bool
  error : Option String
  hashesToDelete : List String
  deriving Repr, DecidableEq

/-- `MapService.delete_map` (map_service.py lines 101-150): refuse when the
user owns at most one map; otherwise delete the map's track rows, compute
which of their hashes no remaining row of this user still references,
delete the map row, and report the hashes only when a map row was in fact
deleted. -/
def deleteMap (db : DB) (mapId : Nat) (userId : String) :
    MapDeleteResult × DB :=
  let mapCount := (db.maps.filter fun m => m.userId == userId).length
  if mapCount ≤ 1 then
    (⟨false, some "Cannot delete the last map", []⟩, db)
  else
    let candidateHashes := (db.tracks.filter fun t =>
      t.mapId == mapId && t.userId == userId).map TrackRow.hash
    let tracksAfter := db.tracks.filter fun t =>
      !(t.mapId == mapId && t.userId == userId)
    let hashesToDelete :=
      if candidateHashes.isEmpty then []
      else
        let stillUsed := (tracksAfter.filter fun t =>
          t.userId == userId && candidateHashes.contains t.hash).map TrackRow.hash
        candidateHashes.filter fun h => !stillUsed.contains h
    let deletedRows := db.maps.filter fun m => m.id == mapId && m.userId == userId
    let mapsAfter := db.maps.filter fun m => !(m.id == mapId && m.userId == userId)
    let deleted := !deletedRows.isEmpty
    (⟨deleted, none, if deleted then hashesToDelete else []⟩,
      ⟨mapsAfter, tracksAfter⟩)

/-- `DeleteResult` of `services/track_service.py`. -/
structure TracksDeleteResult where
  deleted : Nat
  hashesToDelete : List String
  deriving Repr, DecidableEq

/-- `TrackService.delete_tracks` (track_service.py lines 219-258). -/
def deleteTracks (db : DB) (trackIds : List Nat) (mapId : Nat)
    (userId : String) : TracksDeleteResult × DB :=
  if trackIds.isEmpty then (⟨0, []⟩, db)
  else
    let matchesRow := fun (t : TrackRow) =>
      trackIds.contains t.id && t.mapId == mapId && t.userId == userId
    let candidateHashes := (db.tracks.filter matchesRow).map TrackRow.hash
    let tracksAfter := db.tracks.filter fun t => !(matchesRow t)
    let hashesToDelete :=
      if candidateHashes.isEmpty then []
      else
        let stillUsed := (tracksAfter.filter fun t =>
          t.userId == userId && candidateHashes.contains t.hash).map TrackRow.hash
        candidateHashes.filter fun h => !stillUsed.contains h
    (⟨(db.tracks.filter matchesRow).length, hashesToDelete⟩,
      ⟨db.maps, tracksAfter⟩)

/-- C3: when the user owns exactly one map, `delete_map` refuses with
`deleted=False`, error `"Cannot delete the last map"`, an empty hash list,
and the whole store (maps and tracks alike) untouched — the count guard
runs before any delete statement. -/
theorem delete_last_map_refused (db : DB) (mapId : Nat) (userId : String)
    (h : (db.maps.filter fun m => m.userId == userId).length = 1) :
    deleteMap db mapId userId =
      (⟨false, some "Cannot delete the last map", []⟩, db) := by
  rw [deleteMap, if_pos (by omega)]

/-- Witness for `delete_last_map_refused`: a user with one map that does
contain a track. -/
theorem delete_last_map_refused_witness :
    (([⟨7, "u", "My Map", 0, 0⟩] : List MapRow).filter
        (fun m => m.userId == "u")).length = 1
    ∧ deleteMap
        ⟨[⟨7, "u", "My Map", 0, 0⟩],
         [{ id := 1, userId := "u", mapId := 7, hash := "h", name := .vStr "t",
            filename := "t.gpx", creator := none, activityType := .vStr "Unknown",
            activityDate := 0, uploadedAt := 0, distanceMeters := 0,
            durationSeconds := 0, avgSpeedMs := 0, maxSpeedMs := 0,
            minSpeedMs := 0, elevationGainMeters := 0, elevationLossMeters := 0,
            boundsMinLat := 0, boundsMinLon := 0, boundsMaxLat := 0,
            boundsMaxLon := 0, visible := .vBool true, coordinates := [(0, 0)],
            segmentSpeeds := none, createdAt := 0, updatedAt := 0 }]⟩ 7 "u" =
      (⟨false, some "Cannot delete the last map", []⟩,
        ⟨[⟨7, "u", "My Map", 0, 0⟩],
         [{ id := 1, userId := "u", mapId := 7, hash := "h", name := .vStr "t",
            filename := "t.gpx", creator := none, activityType := .vStr "Unknown",
            activityDate := 0, uploadedAt := 0, distanceMeters := 0,
            durationSeconds := 0, avgSpeedMs := 0, maxSpeedMs := 0,
            minSpeedMs := 0, elevationGainMeters := 0, elevationLossMeters := 0,
            boundsMinLat := 0, boundsMinLon := 0, boundsMaxLat := 0,
            boundsMaxLon := 0, visible := .vBool true, coordinates := [(0, 0)],
            segmentSpeeds := none, createdAt := 0, updatedAt := 0 }]⟩) :=
  ⟨by decide,
    delete_last_map_refused _ 7 "u" (by decide)⟩

/-- The freed-hash computation shared by `delete_tracks` and `delete_map`:
select the matching rows' hashes, delete the rows, re-select which of those
hashes some remaining row of the same user still uses, and keep the
candidates not still used.  A hash is kept exactly when a deleted row bore
it and no remaining row of the user references it. -/
theorem freedHashes_mem_iff (tracks : List TrackRow) (p : TrackRow → Bool)
    (userId : String) (h : String) :
    (h ∈ (if ((tracks.filter p).map TrackRow.hash).isEmpty then ([] : List String)
      else ((tracks.filter p).map TrackRow.hash).filter fun x =>
        !((((tracks.filter fun t => !(p t)).filter fun t =>
            t.userId == userId
              && ((tracks.filter p).map TrackRow.hash).contains t.hash).map
          TrackRow.hash).contains x))
    ↔ ((∃ t ∈ tracks, p t = true ∧ t.hash = h)
        ∧ ∀ t ∈ tracks.filter (fun t => !(p t)), t.userId = userId → t.hash ≠ h)) := by
  by_cases hemp : ((tracks.filter p).map TrackRow.hash).isEmpty
  · rw [if_pos hemp]
    rw [List.isEmpty_iff] at hemp
    simp only [List.not_mem_nil, false_iff]
    rintro ⟨⟨t, ht, hpt, hh⟩, -⟩
    have : t.hash ∈ (tracks.filter p).map TrackRow.hash :=
      List.mem_map_of_mem _ (List.mem_filter.mpr ⟨ht, hpt⟩)
    rw [hemp] at this
    exact List.not_mem_nil _ this
  · rw [if_neg hemp]
    constructor
    · intro hmem
      rcases List.mem_filter.mp hmem with ⟨hcand, hnot⟩
      rcases List.mem_map.mp hcand with ⟨t, htf, hth⟩
      rcases List.mem_filter.mp htf with ⟨ht, hpt⟩
      refine ⟨⟨t, ht, hpt, hth⟩, ?_⟩
      intro u hu huid huh
      simp only [Bool.not_eq_true'] at hnot
      have hnoth : h ∉ (((tracks.filter fun t => !(p t)).filter fun t =>
          t.userId == userId
            && ((tracks.filter p).map TrackRow.hash).contains t.hash).map
          TrackRow.hash) := by
        simpa using hnot
      apply hnoth
      rw [← huh]
      apply List.mem_map_of_mem
      apply List.mem_filter.mpr
      refine ⟨hu, ?_⟩
      simp only [Bool.and_eq_true, beq_iff_eq]
      refine ⟨huid, ?_⟩
      rw [huh]
      simpa using hcand
    · rintro ⟨⟨t, ht, hpt, hth⟩, hnone⟩
      apply List.mem_filter.mpr
      have hcand : h ∈ (tracks.filter p).map TrackRow.hash := by
        rw [← hth]
        exact List.mem_map_of_mem _ (List.mem_filter.mpr ⟨ht, hpt⟩)
      refine ⟨hcand, ?_⟩
      have hns : h ∉ (((tracks.filter fun t => !(p t)).filter fun t =>
          t.userId == userId
            && ((tracks.filter p).map TrackRow.hash).contains t.hash).map
          TrackRow.hash) := by
        intro hcontr
        rcases List.mem_map.mp hcontr with ⟨u, huf, huh⟩
        rcases List.mem_filter.mp huf with ⟨huafter, hcond⟩
        simp only [Bool.and_eq_true, beq_iff_eq] at hcond
        exact hnone u huafter hcond.1 huh
      simpa using hns

/-- C2: for `delete_tracks` and for `delete_map`, a hash appears in the
returned `hashes_to_delete` exactly when it belonged to a row deleted by the
call and, after the deletion, no remaining track row of the same user — in
any of that user's maps — still references it.  The `delete_map` half needs
the foreign-key integrity of the store (a track's map exists and shares its
owner): it guarantees that when the map row is missing no track row is
deleted, so the empty list reported on `deleted=False` is correct. -/
theorem delete_hashes_freed_iff (db : DB) (trackIds : List Nat) (mapId : Nat)
    (userId : String) (hwf : WellFormedDB db) (h : String) :
    (h ∈ (deleteTracks db trackIds mapId userId).1.hashesToDelete ↔
      ((∃ t ∈ db.tracks,
          (t.id ∈ trackIds ∧ t.mapId = mapId ∧ t.userId = userId) ∧ t.hash = h)
        ∧ ∀ t ∈ (deleteTracks db trackIds mapId userId).2.tracks,
            t.userId = userId → t.hash ≠ h))
    ∧ (h ∈ (deleteMap db mapId userId).1.hashesToDelete ↔
      ((∃ t ∈ db.tracks, (t.mapId = mapId ∧ t.userId = userId) ∧ t.hash = h)
        ∧ ∀ t ∈ (deleteMap db mapId userId).2.tracks,
            t.userId = userId → t.hash ≠ h)) := by
  constructor
  · by_cases hids : trackIds.isEmpty
    · have heq : deleteTracks db trackIds mapId userId = (⟨0, []⟩, db) := by
        rw [deleteTracks, if_pos hids]
      rw [heq]
      rw [List.isEmpty_iff] at hids
      subst hids
      simp only [List.not_mem_nil, false_iff, not_and]
      rintro ⟨t, -, ⟨hid, -, -⟩, -⟩
      exact hid.elim
    · have heq :
          deleteTracks db trackIds mapId userId =
            (⟨(db.tracks.filter fun t =>
                  trackIds.contains t.id && t.mapId == mapId
                    && t.userId == userId).length,
              if ((db.tracks.filter fun t =>
                    trackIds.contains t.id && t.mapId == mapId
                      && t.userId == userId).map TrackRow.hash).isEmpty then []
              else ((db.tracks.filter fun t =>
                    trackIds.contains t.id && t.mapId == mapId
                      && t.userId == userId).map TrackRow.hash).filter fun x =>
                !((((db.tracks.filter fun t =>
                      !(trackIds.contains t.id && t.mapId == mapId
                        && t.userId == userId)).filter fun t =>
                    t.userId == userId
                      && ((db.tracks.filter fun t =>
                            trackIds.contains t.id && t.mapId == mapId
                              && t.userId == userId).map
                          TrackRow.hash).contains t.hash).map
                  TrackRow.hash).contains x)⟩,
             ⟨db.maps, db.tracks.filter fun t =>
                !(trackIds.contains t.id && t.mapId == mapId
                  && t.userId == userId)⟩) := by
        rw [deleteTracks, if_neg hids]
      rw [heq]
      have hiff := freedHashes_mem_iff db.tracks
        (fun t => trackIds.contains t.id && t.mapId == mapId && t.userId == userId)
        userId h
      rw [show (⟨db.maps, db.tracks.filter fun t =>
          !(trackIds.contains t.id && t.mapId == mapId && t.userId == userId)⟩
            : DB).tracks =
          db.tracks.filter fun t =>
            !(trackIds.contains t.id && t.mapId == mapId && t.userId == userId)
        from rfl]
      rw [hiff]
      constructor
      · rintro ⟨⟨t, ht, hpt, hth⟩, hrest⟩
        simp only [Bool.and_eq_true, beq_iff_eq] at hpt
        exact ⟨⟨t, ht, ⟨by simpa using hpt.1.1, hpt.1.2, hpt.2⟩, hth⟩, hrest⟩
      · rintro ⟨⟨t, ht, hpt, hth⟩, hrest⟩
        refine ⟨⟨t, ht, ?_, hth⟩, hrest⟩
        simp only [Bool.and_eq_true, beq_iff_eq]
        exact ⟨⟨by simpa using hpt.1, hpt.2.1⟩, hpt.2.2⟩
  · by_cases hcnt : (db.maps.filter fun m => m.userId == userId).length ≤ 1
    · have heq : deleteMap db mapId userId =
          (⟨false, some "Cannot delete the last map", []⟩, db) := by
        rw [deleteMap, if_pos hcnt]
      rw [heq]
      simp only [List.not_mem_nil, false_iff, not_and]
      rintro ⟨t, ht, ⟨hm, hu⟩, hh⟩
      intro hall
      exact hall t ht hu hh
    · have heq : deleteMap db mapId userId =
          (⟨!(db.maps.filter fun m => m.id == mapId && m.userId == userId).isEmpty,
            none,
            if !(db.maps.filter fun m =>
                m.id == mapId && m.userId == userId).isEmpty then
              (if ((db.tracks.filter fun t =>
                    t.mapId == mapId && t.userId == userId).map
                    TrackRow.hash).isEmpty then []
              else ((db.tracks.filter fun t =>
                    t.mapId == mapId && t.userId == userId).map
                    TrackRow.hash).filter fun x =>
                !((((db.tracks.filter fun t =>
                      !(t.mapId == mapId && t.userId == userId)).filter fun t =>
                    t.userId == userId
                      && ((db.tracks.filter fun t =>
                            t.mapId == mapId && t.userId == userId).map
                          TrackRow.hash).contains t.hash).map
                  TrackRow.hash).contains x))
            else []⟩,
           ⟨db.maps.filter fun m => !(m.id == mapId && m.userId == userId),
            db.tracks.filter fun t => !(t.mapId == mapId && t.userId == userId)⟩) := by
        rw [deleteMap, if_neg hcnt]
      rw [heq]
      by_cases hdel : (db.maps.filter fun m =>
          m.id == mapId && m.userId == userId).isEmpty
      · simp only [hdel, Bool.not_true, Bool.false_eq_true, if_false,
          List.not_mem_nil, false_iff, not_and]
        rintro ⟨t, ht, ⟨hm, hu⟩, hh⟩
        rcases hwf t ht with ⟨m, hmm, hid, huid⟩
        rw [List.isEmpty_iff] at hdel
        have : m ∈ db.maps.filter fun m => m.id == mapId && m.userId == userId := by
          apply List.mem_filter.mpr
          refine ⟨hmm, ?_⟩
          simp only [Bool.and_eq_true, beq_iff_eq]
          exact ⟨hid.trans hm, huid.trans hu⟩
        rw [hdel] at this
        exact (List.not_mem_nil _ this).elim
      · simp only [hdel, Bool.not_false, if_true]
        have hiff := freedHashes_mem_iff db.tracks
          (fun t => t.mapId == mapId && t.userId == userId) userId h
        rw [hiff]
        constructor
        · rintro ⟨⟨t, ht, hpt, hth⟩, hrest⟩
          simp only [Bool.and_eq_true, beq_iff_eq] at hpt
          exact ⟨⟨t, ht, hpt, hth⟩, hrest⟩
        · rintro ⟨⟨t, ht, hpt, hth⟩, hrest⟩
          refine ⟨⟨t, ht, ?_, hth⟩, hrest⟩
          simp only [Bool.and_eq_true, beq_iff_eq]
          exact hpt

/-- A track row with given key fields and defaulted analytics, used to build
concrete witnesses. -/
def mkTrackRow (i m : Nat) (u hs : String) : TrackRow :=
  { id := i, userId := u, mapId := m, hash := hs, name := .vStr "t",
    filename := "t.gpx", creator := none, activityType := .vStr "Unknown",
    activityDate := 0, uploadedAt := 0, distanceMeters := 0,
    durationSeconds := 0, avgSpeedMs := 0, maxSpeedMs := 0, minSpeedMs := 0,
    elevationGainMeters := 0, elevationLossMeters := 0, boundsMinLat := 0,
    boundsMinLon := 0, boundsMaxLat := 0, boundsMaxLon := 0,
    visible := .vBool true, coordinates := [(0, 0)], segmentSpeeds := none,
    createdAt := 0, updatedAt := 0 }

/-- A concrete store for the deletion witnesses: user `"u"` has maps `1`, `2`;
hash `"a"` lives under both maps, hash `"b"` only under map `1`. -/
def wDeleteDB : DB :=
  ⟨[⟨1, "u", "A", 0, 0⟩, ⟨2, "u", "B", 0, 0⟩],
   [mkTrackRow 1 1 "u" "a", mkTrackRow 2 2 "u" "a", mkTrackRow 3 1 "u" "b"]⟩

/-- Witness for `delete_hashes_freed_iff`: deleting tracks `1` and `3` from
map `1` frees hash `"b"` but not `"a"` (still referenced under map `2`). -/
theorem delete_hashes_freed_iff_witness :
    WellFormedDB wDeleteDB
    ∧ ((("b" : String) ∈ (deleteTracks wDeleteDB [1, 3] 1 "u").1.hashesToDelete ↔
        ((∃ t ∈ wDeleteDB.tracks,
            (t.id ∈ [1, 3] ∧ t.mapId = 1 ∧ t.userId = "u") ∧ t.hash = "b")
          ∧ ∀ t ∈ (deleteTracks wDeleteDB [1, 3] 1 "u").2.tracks,
              t.userId = "u" → t.hash ≠ "b"))
      ∧ (("b" : String) ∈ (deleteMap wDeleteDB 1 "u").1.hashesToDelete ↔
        ((∃ t ∈ wDeleteDB.tracks, (t.mapId = 1 ∧ t.userId = "u") ∧ t.hash = "b")
          ∧ ∀ t ∈ (deleteMap wDeleteDB 1 "u").2.tracks,
              t.userId = "u" → t.hash ≠ "b"))) :=
  ⟨by unfold WellFormedDB; decide,
    delete_hashes_freed_iff wDeleteDB [1, 3] 1 "u" (by unfold WellFormedDB; decide) "b"⟩

/-! ## Track updates (`TrackService.update_track` / `update_tracks`,
track_service.py lines 14 and 187-289)

`ALLOWED_UPDATE_FIELDS = {"visible", "name", "activity_type"}`; both
operations first filter the incoming dict down to the allow-list
(`allowed_updates = {k: v for k, v in updates.items() if k in
ALLOWED_UPDATE_FIELDS}`) and only then write, so an unknown key is dropped
without error.  The `updated_at` column is declared with
`onupdate=func.now()` (`models/track_model.py` line 49), so whenever either
operation actually issues an UPDATE — `update_track` via the ORM flush of a
row the filtered payload touched, `update_tracks` via the Core `update()`
statement it only issues for a non-empty filtered payload — the database
also bumps `updated_at` to the current time, outside the allow-list. -/

/-- `ALLOWED_UPDATE_FIELDS` (an update payload is modelled as an ordered
key/value list; Python dict keys are unique but nothing here needs that). -/
def ALLOWED_UPDATE_FIELDS : List String := ["visible", "name", "activity_type"]

/-- `setattr(track_model, key, value)` for a key that survived the
allow-list filter (the final catch-all is unreachable after filtering). -/
def setTrackField (t : TrackRow) (kv : String × PyValue) : TrackRow :=
  if kv.1 == "visible" then { t with visible := kv.2 }
  else if kv.1 == "name" then { t with name := kv.2 }
  else if kv.1 == "activity_type" then { t with activityType := kv.2 }
  else t

/-- Filter the payload to the allow-list, then apply each surviving pair. -/
def applyAllowedUpdates (t : TrackRow) (updates : List (String × PyValue)) :
    TrackRow :=
  (updates.filter fun kv => ALLOWED_UPDATE_FIELDS.contains kv.1).foldl
    setTrackField t

/-- `TrackService.update_track`: look up the row scoped by
`(id, map_id, user_id)`; `None` when absent; else apply the allowed updates
and return the refreshed row.  `session.flush()` issues the UPDATE — and
with it the `onupdate=func.now()` bump of `updated_at`, modelled by the
`now` argument — exactly when the filtered payload touched the row, i.e.
when it is non-empty; an empty filtered payload leaves the row clean and
the flush writes nothing. -/
def updateTrack (now : ℚ) (db : DB) (trackId : Nat)
    (updates : List (String × PyValue)) (mapId : Nat) (userId : String) :
    Option TrackRow × DB :=
  match db.tracks.find? fun t =>
      t.id == trackId && t.mapId == mapId && t.userId == userId with
  | none => (none, db)
  | some t =>
    let t' :=
      if (updates.filter fun kv => ALLOWED_UPDATE_FIELDS.contains kv.1).isEmpty
      then t
      else { applyAllowedUpdates t updates with updatedAt := now }
    (some t',
      ⟨db.maps, db.tracks.map fun u =>
        if u.id == trackId && u.mapId == mapId && u.userId == userId then t'
        else u⟩)

/-- `TrackService.update_tracks`: bulk `UPDATE … SET **allowed_updates`
over the rows scoped by `(id ∈ track_ids, map_id, user_id)`; returns the
matched row count; short-circuits to `0` on an empty id list or an empty
filtered payload.  When the UPDATE does run, SQLAlchemy renders the
`onupdate=func.now()` of `updated_at` into its SET clause, so every matched
row's `updated_at` is set to the current time. -/
def updateTracks (now : ℚ) (db : DB) (trackIds : List Nat)
    (updates : List (String × PyValue)) (mapId : Nat) (userId : String) :
    Nat × DB :=
  if trackIds.isEmpty then (0, db)
  else
    let allowed := updates.filter fun kv => ALLOWED_UPDATE_FIELDS.contains kv.1
    if allowed.isEmpty then (0, db)
    else
      let matchesRow := fun (t : TrackRow) =>
        trackIds.contains t.id && t.mapId == mapId && t.userId == userId
      ((db.tracks.filter matchesRow).length,
        ⟨db.maps, db.tracks.map fun t =>
          if matchesRow t then
            { allowed.foldl setTrackField t with updatedAt := now }
          else t⟩)

/-- Two rows agreeing on every column outside the update allow-list
(everything but `visible`, `name`, `activity_type`) — including
`updated_at`.  This is the frame the claim asserts, and it fails on the
program: see the counterexample below. -/
def agreesOutsideAllowed (a b : TrackRow) : Prop :=
  a.id = b.id ∧ a.userId = b.userId ∧ a.mapId = b.mapId ∧ a.hash = b.hash
    ∧ a.filename = b.filename ∧ a.creator = b.creator
    ∧ a.activityDate = b.activityDate ∧ a.uploadedAt = b.uploadedAt
    ∧ a.distanceMeters = b.distanceMeters
    ∧ a.durationSeconds = b.durationSeconds ∧ a.avgSpeedMs = b.avgSpeedMs
    ∧ a.maxSpeedMs = b.maxSpeedMs ∧ a.minSpeedMs = b.minSpeedMs
    ∧ a.elevationGainMeters = b.elevationGainMeters
    ∧ a.elevationLossMeters = b.elevationLossMeters
    ∧ a.boundsMinLat = b.boundsMinLat ∧ a.boundsMinLon = b.boundsMinLon
    ∧ a.boundsMaxLat = b.boundsMaxLat ∧ a.boundsMaxLon = b.boundsMaxLon
    ∧ a.coordinates = b.coordinates ∧ a.segmentSpeeds = b.segmentSpeeds
    ∧ a.createdAt = b.createdAt ∧ a.updatedAt = b.updatedAt

/-- Two rows agreeing on every column outside the update allow-list except
the database-maintained `updated_at` timestamp (everything but `visible`,
`name`, `activity_type`, `updated_at`) — the frame the program actually
guarantees. -/
def agreesOutsideMutated (a b : TrackRow) : Prop :=
  a.id = b.id ∧ a.userId = b.userId ∧ a.mapId = b.mapId ∧ a.hash = b.hash
    ∧ a.filename = b.filename ∧ a.creator = b.creator
    ∧ a.activityDate = b.activityDate ∧ a.uploadedAt = b.uploadedAt
    ∧ a.distanceMeters = b.distanceMeters
    ∧ a.durationSeconds = b.durationSeconds ∧ a.avgSpeedMs = b.avgSpeedMs
    ∧ a.maxSpeedMs = b.maxSpeedMs ∧ a.minSpeedMs = b.minSpeedMs
    ∧ a.elevationGainMeters = b.elevationGainMeters
    ∧ a.elevationLossMeters = b.elevationLossMeters
    ∧ a.boundsMinLat = b.boundsMinLat ∧ a.boundsMinLon = b.boundsMinLon
    ∧ a.boundsMaxLat = b.boundsMaxLat ∧ a.boundsMaxLon = b.boundsMaxLon
    ∧ a.coordinates = b.coordinates ∧ a.segmentSpeeds = b.segmentSpeeds
    ∧ a.createdAt = b.createdAt

theorem agreesOutsideAllowed_refl (a : TrackRow) : agreesOutsideAllowed a a := by
  unfold agreesOutsideAllowed
  refine ⟨rfl, rfl, rfl, rfl, rfl, rfl, rfl, rfl, rfl, rfl, rfl, rfl, rfl,
    rfl, rfl, rfl, rfl, rfl, rfl, rfl, rfl, rfl, rfl⟩

theorem agreesOutsideAllowed_trans {a b c : TrackRow}
    (h1 : agreesOutsideAllowed a b) (h2 : agreesOutsideAllowed b c) :
    agreesOutsideAllowed a c := by
  obtain ⟨e1, e2, e3, e4, e5, e6, e7, e8, e9, e10, e11, e12, e13, e14, e15,
    e16, e17, e18, e19, e20, e21, e22, e23⟩ := h1
  obtain ⟨f1, f2, f3, f4, f5, f6, f7, f8, f9, f10, f11, f12, f13, f14, f15,
    f16, f17, f18, f19, f20, f21, f22, f23⟩ := h2
  exact ⟨e1.trans f1, e2.trans f2, e3.trans f3, e4.trans f4, e5.trans f5,
    e6.trans f6, e7.trans f7, e8.trans f8, e9.trans f9, e10.trans f10,
    e11.trans f11, e12.trans f12, e13.trans f13, e14.trans f14,
    e15.trans f15, e16.trans f16, e17.trans f17, e18.trans f18,
    e19.trans f19, e20.trans f20, e21.trans f21, e22.trans f22,
    e23.trans f23⟩

theorem agreesOutsideAllowed_imp_mutated {a b : TrackRow}
    (h : agreesOutsideAllowed a b) : agreesOutsideMutated a b := by
  obtain ⟨e1, e2, e3, e4, e5, e6, e7, e8, e9, e10, e11, e12, e13, e14, e15,
    e16, e17, e18, e19, e20, e21, e22, -⟩ := h
  exact ⟨e1, e2, e3, e4, e5, e6, e7, e8, e9, e10, e11, e12, e13, e14, e15,
    e16, e17, e18, e19, e20, e21, e22⟩

theorem agreesOutsideMutated_refl (a : TrackRow) : agreesOutsideMutated a a :=
  agreesOutsideAllowed_imp_mutated (agreesOutsideAllowed_refl a)

/-- Overwriting `updated_at` on a row that agrees with `a` outside the
allow-list still agrees with `a` outside the mutated set. -/
theorem agrees_setUpdatedAt {a b : TrackRow} (h : agreesOutsideAllowed a b)
    (now : ℚ) : agreesOutsideMutated a { b with updatedAt := now } := by
  obtain ⟨e1, e2, e3, e4, e5, e6, e7, e8, e9, e10, e11, e12, e13, e14, e15,
    e16, e17, e18, e19, e20, e21, e22, -⟩ := h
  exact ⟨e1, e2, e3, e4, e5, e6, e7, e8, e9, e10, e11, e12, e13, e14, e15,
    e16, e17, e18, e19, e20, e21, e22⟩

theorem setTrackField_agrees (t : TrackRow) (kv : String × PyValue) :
    agreesOutsideAllowed t (setTrackField t kv) := by
  unfold setTrackField
  split
  · exact ⟨rfl, rfl, rfl, rfl, rfl, rfl, rfl, rfl, rfl, rfl, rfl, rfl, rfl,
      rfl, rfl, rfl, rfl, rfl, rfl, rfl, rfl, rfl, rfl⟩
  · split
    · exact ⟨rfl, rfl, rfl, rfl, rfl, rfl, rfl, rfl, rfl, rfl, rfl, rfl, rfl,
        rfl, rfl, rfl, rfl, rfl, rfl, rfl, rfl, rfl, rfl⟩
    · split
      · exact ⟨rfl, rfl, rfl, rfl, rfl, rfl, rfl, rfl, rfl, rfl, rfl, rfl,
          rfl, rfl, rfl, rfl, rfl, rfl, rfl, rfl, rfl, rfl, rfl⟩
      · exact agreesOutsideAllowed_refl t

theorem foldl_setTrackField_agrees (l : List (String × PyValue)) (t : TrackRow) :
    agreesOutsideAllowed t (l.foldl setTrackField t) := by
  induction l generalizing t with
  | nil => exact agreesOutsideAllowed_refl t
  | cons kv rest ih =>
    exact agreesOutsideAllowed_trans (setTrackField_agrees t kv)
      (ih (setTrackField t kv))

theorem applyAllowedUpdates_agrees (t : TrackRow)
    (updates : List (String × PyValue)) :
    agreesOutsideAllowed t (applyAllowedUpdates t updates) :=
  foldl_setTrackField_agrees _ t

/-- Counterexample to C9 as stated: `updated_at` is outside the
`{visible, name, activity_type}` allow-list, every row of the store has
`updated_at = 0`, yet after `update_track` (and after `update_tracks`) with
payload `{"visible": False}` at time `5` the targeted row's `updated_at` is
`5` — the `onupdate=func.now()` bump — so a field outside the allow-list
does not retain its prior value. -/
theorem update_updated_at_counterexample :
    ("updated_at" ∉ ALLOWED_UPDATE_FIELDS
      ∧ ∀ t ∈ wDeleteDB.tracks, t.updatedAt = 0)
    ∧ (∃ t ∈ (updateTrack 5 wDeleteDB 1
        [("visible", .vBool false)] 1 "u").2.tracks, t.updatedAt = 5)
    ∧ (∃ t ∈ (updateTracks 5 wDeleteDB [1]
        [("visible", .vBool false)] 1 "u").2.tracks, t.updatedAt = 5) := by
  refine ⟨⟨by decide, by decide⟩, by decide, by decide⟩

/-- C9 (amended): `update_track` and `update_tracks` mutate only the
allow-listed fields `visible`, `name`, `activity_type` of the targeted rows
plus the database-maintained `updated_at` timestamp (bumped by
`onupdate=func.now()` whenever an UPDATE is issued, i.e. whenever the
filtered payload is non-empty): after either call every row in the store
agrees with a row of the original store on all other columns, its
`updated_at` is either unchanged or the current time, and prepending a key
outside the allow-list to the payload leaves the whole result (return
value and store) unchanged — the unknown key is silently dropped, never an
error. -/
theorem update_allowlist_frame (now : ℚ) (db : DB) (trackId : Nat)
    (trackIds : List Nat) (updates : List (String × PyValue)) (mapId : Nat)
    (userId : String) (k : String) (v : PyValue)
    (hk : k ∉ ALLOWED_UPDATE_FIELDS) :
    (∀ t ∈ (updateTrack now db trackId updates mapId userId).2.tracks,
        ∃ t0 ∈ db.tracks, agreesOutsideMutated t0 t
          ∧ (t.updatedAt = t0.updatedAt ∨ t.updatedAt = now))
    ∧ updateTrack now db trackId ((k, v) :: updates) mapId userId
        = updateTrack now db trackId updates mapId userId
    ∧ (∀ t ∈ (updateTracks now db trackIds updates mapId userId).2.tracks,
        ∃ t0 ∈ db.tracks, agreesOutsideMutated t0 t
          ∧ (t.updatedAt = t0.updatedAt ∨ t.updatedAt = now))
    ∧ updateTracks now db trackIds ((k, v) :: updates) mapId userId
        = updateTracks now db trackIds updates mapId userId := by
  have hcont : ALLOWED_UPDATE_FIELDS.contains k = false := by
    cases hc : ALLOWED_UPDATE_FIELDS.contains k
    · rfl
    · exact absurd (by simpa using hc) hk
  have hfilter : ((k, v) :: updates).filter
      (fun kv => ALLOWED_UPDATE_FIELDS.contains kv.1) =
      updates.filter (fun kv => ALLOWED_UPDATE_FIELDS.contains kv.1) := by
    rw [List.filter_cons]
    simp [hcont, hk]
  have happly : ∀ t, applyAllowedUpdates t ((k, v) :: updates)
      = applyAllowedUpdates t updates := by
    intro t
    unfold applyAllowedUpdates
    rw [hfilter]
  refine ⟨?_, ?_, ?_, ?_⟩
  · intro t ht
    rw [updateTrack] at ht
    rcases hfind : db.tracks.find? fun t =>
        t.id == trackId && t.mapId == mapId && t.userId == userId with _ | t0
    · rw [hfind] at ht
      exact ⟨t, ht, agreesOutsideMutated_refl t, Or.inl rfl⟩
    · rw [hfind] at ht
      simp only at ht
      rcases List.mem_map.mp ht with ⟨u, hu, hut⟩
      by_cases hcond : (u.id == trackId && u.mapId == mapId
          && u.userId == userId) = true
      · rw [if_pos hcond] at hut
        by_cases hemp : (updates.filter fun kv =>
            ALLOWED_UPDATE_FIELDS.contains kv.1).isEmpty
        · rw [if_pos hemp] at hut
          refine ⟨t0, List.mem_of_find?_eq_some hfind, ?_, ?_⟩
          · rw [← hut]
            exact agreesOutsideMutated_refl t0
          · rw [← hut]
            exact Or.inl rfl
        · rw [if_neg hemp] at hut
          refine ⟨t0, List.mem_of_find?_eq_some hfind, ?_, ?_⟩
          · rw [← hut]
            exact agrees_setUpdatedAt (applyAllowedUpdates_agrees t0 updates) now
          · rw [← hut]
            exact Or.inr rfl
      · rw [if_neg hcond] at hut
        refine ⟨u, hu, ?_, ?_⟩
        · rw [← hut]
          exact agreesOutsideMutated_refl u
        · rw [← hut]
          exact Or.inl rfl
  · simp only [updateTrack, happly, hfilter]
  · intro t ht
    rw [updateTracks] at ht
    by_cases hids : trackIds.isEmpty
    · rw [if_pos hids] at ht
      exact ⟨t, ht, agreesOutsideMutated_refl t, Or.inl rfl⟩
    · rw [if_neg hids] at ht
      simp only at ht
      by_cases hallow : (updates.filter fun kv =>
          ALLOWED_UPDATE_FIELDS.contains kv.1).isEmpty
      · rw [if_pos hallow] at ht
        exact ⟨t, ht, agreesOutsideMutated_refl t, Or.inl rfl⟩
      · rw [if_neg hallow] at ht
        simp only at ht
        rcases List.mem_map.mp ht with ⟨u, hu, hut⟩
        by_cases hcond : (trackIds.contains u.id && u.mapId == mapId
            && u.userId == userId) = true
        · rw [if_pos hcond] at hut
          refine ⟨u, hu, ?_, ?_⟩
          · rw [← hut]
            exact agrees_setUpdatedAt (foldl_setTrackField_agrees _ u) now
          · rw [← hut]
            exact Or.inr rfl
        · rw [if_neg hcond] at hut
          refine ⟨u, hu, ?_, ?_⟩
          · rw [← hut]
            exact agreesOutsideMutated_refl u
          · rw [← hut]
            exact Or.inl rfl
  · simp only [updateTracks, hfilter]

/-- Witness for `update_allowlist_frame`: updating track `1` of map `1`
with `{"visible": False}` at time `5` and checking that a `"hash"` key
would be ignored. -/
theorem update_allowlist_frame_witness :
    ("hash" ∉ ALLOWED_UPDATE_FIELDS)
    ∧ ((∀ t ∈ (updateTrack 5 wDeleteDB 1
          [("visible", .vBool false)] 1 "u").2.tracks,
        ∃ t0 ∈ wDeleteDB.tracks, agreesOutsideMutated t0 t
          ∧ (t.updatedAt = t0.updatedAt ∨ t.updatedAt = 5))
    ∧ updateTrack 5 wDeleteDB 1
        (("hash", .vStr "evil") :: [("visible", .vBool false)]) 1 "u"
        = updateTrack 5 wDeleteDB 1 [("visible", .vBool false)] 1 "u"
    ∧ (∀ t ∈ (updateTracks 5 wDeleteDB [1, 2]
          [("visible", .vBool false)] 1 "u").2.tracks,
        ∃ t0 ∈ wDeleteDB.tracks, agreesOutsideMutated t0 t
          ∧ (t.updatedAt = t0.updatedAt ∨ t.updatedAt = 5))
    ∧ updateTracks 5 wDeleteDB [1, 2]
        (("hash", .vStr "evil") :: [("visible", .vBool false)]) 1 "u"
        = updateTracks 5 wDeleteDB [1, 2] [("visible", .vBool false)] 1 "u") :=
  ⟨by decide,
    update_allowlist_frame 5 wDeleteDB 1 [1, 2] [("visible", .vBool false)]
      1 "u" "hash" (.vStr "evil") (by decide)⟩

/-! ## `GPXParser.parse` and the upload flow

`parse` (gpx_parser.py lines 30-74) feeds the extracted series through the
pure calculators; `upload_track` (track_service.py lines 28-100) runs the
duplicate check, the parse, the blob write and the row insert in that
order.  A GPX upload is modelled as either unparseable XML or the parsed
`<trk>/<trkseg>/<trkpt>` structure. -/

/-- `Path(filename).stem`: the file name without its final suffix (a suffix
needs a dot after the first character). -/
def stem (s : String) : String :=
  let cs := s.toList
  match cs.reverse.findIdx? (· == '.') with
  | none => s
  | some k =>
    let pos := cs.length - 1 - k
    if pos = 0 then s else (cs.take pos).asString

/-- `ACTIVITY_PATTERNS` of `GPXParser.infer_activity_type` — ordered, first
match wins. -/
def ACTIVITY_PATTERNS : List (List String × String) :=
  [(["mountain bike", "mountain biking"], "Cycling"),
   (["downhill skiing"], "Downhill Skiing"),
   (["walk", "walking"], "Walking"),
   (["run", "running"], "Running"),
   (["cycl", "bik", "mtb"], "Cycling"),
   (["swim", "swimming"], "Swimming"),
   (["multisport", "triathlon"], "Multisport"),
   (["other"], "Other")]

/-- Does the first character list start the second one? -/
def startsWithChars : List Char → List Char → Bool
  | [], _ => true
  | _ :: _, [] => false
  | a :: as, b :: bs => a == b && startsWithChars as bs

/-- Python's `needle in haystack` on strings, as character lists. -/
def containsSub (needle : List Char) : List Char → Bool
  | [] => needle.isEmpty
  | c :: rest => startsWithChars needle (c :: rest) || containsSub needle rest

/-- `GPXParser.infer_activity_type`: case-insensitive substring scan of the
filename against the ordered pattern table. -/
def inferActivityType (filename : String) : String :=
  let fl := filename.toLower
  match ACTIVITY_PATTERNS.find? (fun pr =>
      pr.1.any fun pat => containsSub pat.toList fl.toList) with
  | some pr => pr.2
  | none => "Unknown"

/-- Python `int()` truncation (toward zero) on a rational. -/
def ratTrunc (q : ℚ) : ℤ :=
  if 0 ≤ q then ⌊q⌋ else -⌊-q⌋

/-- `GPXParser._calculate_duration`:
`int((timestamps[-1] - timestamps[0]).total_seconds())`, `0` with fewer than
two timestamps. -/
def calcDuration (ts : List ℚ) : ℤ :=
  if ts.length < 2 then 0
  else ratTrunc (ts.getLast?.getD 0 - ts.head?.getD 0)

/-- `GPXParser._calculate_elevation`: (gain, loss) = sums of positive and of
absolute negative consecutive differences. -/
def calcElevation (elevs : List ℚ) : ℚ × ℚ :=
  if elevs.length < 2 then (0, 0)
  else
    let diffs := (consecutivePairs elevs).map fun p => p.2 - p.1
    ((diffs.filter fun d => decide (0 < d)).sum,
      ((diffs.filter fun d => decide (d < 0)).map fun d => |d|).sum)

/-- `GPXParser._calculate_bounds` as
`(min_lat, max_lat, min_lon, max_lon)`; coordinates are `(lon, lat)`. -/
def calcBounds (coords : List (ℚ × ℚ)) : ℚ × ℚ × ℚ × ℚ :=
  (npMin (coords.map Prod.snd), npMax (coords.map Prod.snd),
    npMin (coords.map Prod.fst), npMax (coords.map Prod.fst))

/-- `ParsedGPXData` as constructed by `GPXParser.parse` (the constructor
call at gpx_parser.py lines 58-74; the `segment_speeds` and `creator`
arguments it passes are part of that call). -/
structure ParsedGPXData where
  coordinates : List (ℚ × ℚ)
  distanceMeters : ℚ
  durationSeconds : ℤ
  avgSpeedMs : ℚ
  maxSpeedMs : ℚ
  minSpeedMs : ℚ
  segmentSpeeds : List ℚ
  elevationGainMeters : ℚ
  elevationLossMeters : ℚ
  boundsMinLat : ℚ
  boundsMaxLat : ℚ
  boundsMinLon : ℚ
  boundsMaxLon : ℚ
  activityDate : ℚ
  creator : Option String
  deriving Repr, DecidableEq

/-- A GPX upload as `gpxpy` sees it: unparseable, or a document with a
`creator` attribute and tracks, each a list of segments, each a list of
points. -/
inductive GpxDoc
  | malformed
  | parsed (creator : Option String) (tracks : List (List (List GpxPoint)))
  deriving Repr, DecidableEq

/-- The points visited by the `<trk>/<trkseg>/<trkpt>` traversal, in
document order. -/
def gpxPoints : GpxDoc → List GpxPoint
  | .malformed => []
  | .parsed _ tracks => (tracks.map List.flatten).flatten

/-- `GPXParser.parse`: fail on unparseable XML, collect the points, fail if
none, then extract all features.  The numpy shape error reachable inside
`_calculate_speed` propagates as an error as well. -/
def gpxParse (dist : ℚ × ℚ → ℚ × ℚ → ℚ) (now : ℚ) (doc : GpxDoc) :
    Except String ParsedGPXData :=
  match doc with
  | .malformed => .error "error parsing XML"
  | .parsed creator tracks =>
    let pts := (tracks.map List.flatten).flatten
    let coordinates := trackCoordinates pts
    let elevations := trackElevations pts
    let timestamps := trackTimestamps pts
    if coordinates.isEmpty then .error "No track points found in GPX file"
    else
      match calcSpeed dist coordinates timestamps with
      | none => .error "boolean index did not match indexed array"
      | some speedStats =>
        let bounds := calcBounds coordinates
        let elevation := calcElevation elevations
        .ok { coordinates := coordinates,
              distanceMeters := (segmentDistances dist coordinates).sum,
              durationSeconds := calcDuration timestamps,
              avgSpeedMs := speedStats.avg, maxSpeedMs := speedStats.max,
              minSpeedMs := speedStats.min,
              segmentSpeeds := speedStats.speeds,
              elevationGainMeters := elevation.1,
              elevationLossMeters := elevation.2,
              boundsMinLat := bounds.1, boundsMaxLat := bounds.2.1,
              boundsMinLon := bounds.2.2.1, boundsMaxLon := bounds.2.2.2,
              activityDate := timestamps.head?.getD now,
              creator := creator }

/-- Upload-time system state: the relational store plus the blob files.
Blob files are keyed by `(user_id, gpx_hash)` as passed at the call site
`self.storage.store_gpx(user_id, gpx_hash, content)` (the stale hash-only
signature of `storage_service.py` is treated separately with the Blob Store
claims). -/
structure SysState where
  db : DB
  blobs : List ((String × String) × GpxDoc)
  deriving Repr, DecidableEq

/-- `TrackUploadResult` of `models/track_upload_result.py`. -/
structure TrackUploadResult where
  duplicate : Bool
  track : TrackRow
  deriving Repr, DecidableEq

/-- `TrackService.upload_track` (track_service.py lines 28-100): hash, then
the `(hash, map_id)`-scoped duplicate check (short-circuit), then parse
(failures wrapped as `"Invalid GPX file: …"` before anything is written),
then blob write, then row insert.  `hashFn` stands for
`storage.calculate_hash` on the upload's raw bytes; `newId` is the primary
key the insert allocates; `now` the clock.  An error leaves the state
untouched: the raise happens before the first write. -/
def uploadTrack (dist : ℚ × ℚ → ℚ × ℚ → ℚ) (now : ℚ)
    (hashFn : GpxDoc → String) (newId : Nat) (filename : String)
    (content : GpxDoc) (mapId : Nat) (userId : String) (st : SysState) :
    Except String TrackUploadResult × SysState :=
  let gpxHash := hashFn content
  match st.db.tracks.find? fun t => t.hash == gpxHash && t.mapId == mapId with
  | some existing => (.ok ⟨true, existing⟩, st)
  | none =>
    match gpxParse dist now content with
    | .error e => (.error ("Invalid GPX file: " ++ e), st)
    | .ok gpxData =>
      let blobs :=
        if st.blobs.any fun b => b.1.1 == userId && b.1.2 == gpxHash then
          st.blobs
        else ((userId, gpxHash), content) :: st.blobs
      let reducedCoordinates := reduceCoordinates gpxData.coordinates
      let row : TrackRow :=
        { id := newId, userId := userId, mapId := mapId, hash := gpxHash,
          name := .vStr (stem filename), filename := filename,
          creator := gpxData.creator,
          activityType := .vStr (inferActivityType filename),
          activityDate := gpxData.activityDate, uploadedAt := now,
          distanceMeters := gpxData.distanceMeters,
          durationSeconds := gpxData.durationSeconds,
          avgSpeedMs := gpxData.avgSpeedMs, maxSpeedMs := gpxData.maxSpeedMs,
          minSpeedMs := gpxData.minSpeedMs,
          elevationGainMeters := gpxData.elevationGainMeters,
          elevationLossMeters := gpxData.elevationLossMeters,
          boundsMinLat := gpxData.boundsMinLat,
          boundsMinLon := gpxData.boundsMinLon,
          boundsMaxLat := gpxData.boundsMaxLat,
          boundsMaxLon := gpxData.boundsMaxLon,
          visible := .vBool true, coordinates := reducedCoordinates,
          segmentSpeeds :=
            reduceSpeeds gpxData.segmentSpeeds reducedCoordinates.length,
          createdAt := now, updatedAt := now }
      (.ok ⟨false, row⟩, ⟨⟨st.db.maps, st.db.tracks ++ [row]⟩, blobs⟩)

/-- C8: a GPX upload that is unparseable XML, or whose
`<trk>/<trkseg>/<trkpt>` traversal yields zero points, makes the parse fail
with a decode error; provided no row with this content hash already exists
in the target map (the duplicate short-circuit), the upload raises
`"Invalid GPX file: …"` and leaves the state exactly as it was — no Track
row and no blob — because both writes sit after the parse. -/
theorem upload_invalid_gpx_no_effect (dist : ℚ × ℚ → ℚ × ℚ → ℚ) (now : ℚ)
    (hashFn : GpxDoc → String) (newId : Nat) (filename : String)
    (content : GpxDoc) (mapId : Nat) (userId : String) (st : SysState)
    (hbad : content = GpxDoc.malformed ∨ gpxPoints content = [])
    (hnodup : ∀ t ∈ st.db.tracks,
      ¬(t.hash = hashFn content ∧ t.mapId = mapId)) :
    ∃ e, gpxParse dist now content = .error e
      ∧ uploadTrack dist now hashFn newId filename content mapId userId st
          = (.error ("Invalid GPX file: " ++ e), st) := by
  have hfind : st.db.tracks.find?
      (fun t => t.hash == hashFn content && t.mapId == mapId) = none := by
    rw [List.find?_eq_none]
    intro t ht
    simp only [Bool.and_eq_true, beq_iff_eq, not_and]
    intro h1 h2
    exact hnodup t ht ⟨h1, h2⟩
  have hparse : ∃ e, gpxParse dist now content = .error e := by
    rcases hbad with hmal | hpts
    · subst hmal
      exact ⟨_, rfl⟩
    · rcases content with _ | ⟨creator, tracks⟩
      · exact ⟨_, rfl⟩
      · have hempty : ((tracks.map List.flatten).flatten) = [] := hpts
        refine ⟨"No track points found in GPX file", ?_⟩
        rw [gpxParse]
        rw [hempty]
        rfl
  rcases hparse with ⟨e, he⟩
  refine ⟨e, he, ?_⟩
  rw [uploadTrack]
  rw [hfind, he]

/-- Witness for `upload_invalid_gpx_no_effect`: a document with one empty
`<trkseg>` uploaded into an empty store. -/
theorem upload_invalid_gpx_no_effect_witness :
    ((GpxDoc.parsed none [[[]]] = GpxDoc.malformed
        ∨ gpxPoints (GpxDoc.parsed none [[[]]]) = [])
      ∧ (∀ t ∈ (⟨⟨[⟨1, "u", "A", 0, 0⟩], []⟩, []⟩ : SysState).db.tracks,
          ¬(t.hash = "h" ∧ t.mapId = 1)))
    ∧ ∃ e, gpxParse (fun _ _ => 1) 0 (GpxDoc.parsed none [[[]]]) = .error e
      ∧ uploadTrack (fun _ _ => 1) 0 (fun _ => "h") 10 "t.gpx"
          (GpxDoc.parsed none [[[]]]) 1 "u" ⟨⟨[⟨1, "u", "A", 0, 0⟩], []⟩, []⟩
          = (.error ("Invalid GPX file: " ++ e), ⟨⟨[⟨1, "u", "A", 0, 0⟩], []⟩, []⟩) :=
  ⟨⟨Or.inr (by decide), by decide⟩,
    upload_invalid_gpx_no_effect (fun _ _ => 1) 0 (fun _ => "h") 10 "t.gpx"
      (GpxDoc.parsed none [[[]]]) 1 "u" ⟨⟨[⟨1, "u", "A", 0, 0⟩], []⟩, []⟩
      (Or.inr (by decide)) (by decide)⟩

/-! ## Cross-map deduplication and the stale ORM schema (claim C1)

The service logic scopes the duplicate check by `(hash, map_id)` and the
migration `2f2d4f3961be` enforces `UNIQUE (map_id, hash)` — under that
schema `uploadTrack` above inserts a second row for the same bytes in a
second map.  The ORM declaration in `models/track_model.py` lines 52-58
however still declares `UNIQUE (user_id, hash)` (and no `map_id` column at
all): under it the second map's insert violates the index. -/

/-- `upload_track` run against the schema declared in
`models/track_model.py`: identical to `uploadTrack`, except that the
`session.flush()` insert raises `IntegrityError` when any row of the same
user already bears the same hash (`idx_tracks_user_hash`, unique).  The
blob write has already happened when the insert fails. -/
def uploadTrackStaleSchema (dist : ℚ × ℚ → ℚ × ℚ → ℚ) (now : ℚ)
    (hashFn : GpxDoc → String) (newId : Nat) (filename : String)
    (content : GpxDoc) (mapId : Nat) (userId : String) (st : SysState) :
    Except String TrackUploadResult × SysState :=
  let gpxHash := hashFn content
  match st.db.tracks.find? fun t => t.hash == gpxHash && t.mapId == mapId with
  | some existing => (.ok ⟨true, existing⟩, st)
  | none =>
    match gpxParse dist now content with
    | .error e => (.error ("Invalid GPX file: " ++ e), st)
    | .ok gpxData =>
      let blobs :=
        if st.blobs.any fun b => b.1.1 == userId && b.1.2 == gpxHash then
          st.blobs
        else ((userId, gpxHash), content) :: st.blobs
      if st.db.tracks.any fun t => t.userId == userId && t.hash == gpxHash then
        (.error "IntegrityError: UNIQUE constraint failed: tracks.user_id, tracks.hash",
          ⟨st.db, blobs⟩)
      else
        let reducedCoordinates := reduceCoordinates gpxData.coordinates
        let row : TrackRow :=
          { id := newId, userId := userId, mapId := mapId, hash := gpxHash,
            name := .vStr (stem filename), filename := filename,
            creator := gpxData.creator,
            activityType := .vStr (inferActivityType filename),
            activityDate := gpxData.activityDate, uploadedAt := now,
            distanceMeters := gpxData.distanceMeters,
            durationSeconds := gpxData.durationSeconds,
            avgSpeedMs := gpxData.avgSpeedMs, maxSpeedMs := gpxData.maxSpeedMs,
            minSpeedMs := gpxData.minSpeedMs,
            elevationGainMeters := gpxData.elevationGainMeters,
            elevationLossMeters := gpxData.elevationLossMeters,
            boundsMinLat := gpxData.boundsMinLat,
            boundsMinLon := gpxData.boundsMinLon,
            boundsMaxLat := gpxData.boundsMaxLat,
            boundsMaxLon := gpxData.boundsMaxLon,
            visible := .vBool true, coordinates := reducedCoordinates,
            segmentSpeeds :=
              reduceSpeeds gpxData.segmentSpeeds reducedCoordinates.length,
            createdAt := now, updatedAt := now }
        (.ok ⟨false, row⟩, ⟨⟨st.db.maps, st.db.tracks ++ [row]⟩, blobs⟩)

/-- A one-point well-formed upload used by the dedup scenarios. -/
def wDoc : GpxDoc := .parsed none [[[⟨0, 0, none, none⟩]]]

/-- User `"u"` with two maps and no tracks yet. -/
def wUploadState : SysState :=
  ⟨⟨[⟨1, "u", "A", 0, 0⟩, ⟨2, "u", "B", 0, 0⟩], []⟩, []⟩

/-- C1 (code evaluated at the failing input): uploading the same bytes to
the user's two maps.  Under the migration schema (`uploadTrack`, unique
`(map_id, hash)`) the first and second uploads both succeed as new rows,
one per map, sharing one blob key — the claim's behaviour.  Under the
schema declared in `models/track_model.py` (`uploadTrackStaleSchema`,
unique `(user_id, hash)`) the second upload's insert raises
`IntegrityError`, contradicting the migration, the service's own map-scoped
duplicate check and `test_delete_preserves_gpx_when_shared_across_maps`. -/
theorem upload_cross_map_dedup_conflict :
    ((uploadTrackStaleSchema (fun _ _ => 1) 0 (fun _ => "h") 10 "t.gpx" wDoc
        1 "u" wUploadState).1.map TrackUploadResult.duplicate
      = Except.ok false)
    ∧ ((uploadTrackStaleSchema (fun _ _ => 1) 0 (fun _ => "h") 11 "t.gpx" wDoc
        2 "u"
        (uploadTrackStaleSchema (fun _ _ => 1) 0 (fun _ => "h") 10 "t.gpx"
          wDoc 1 "u" wUploadState).2).1
      = .error "IntegrityError: UNIQUE constraint failed: tracks.user_id, tracks.hash")
    ∧ ((uploadTrack (fun _ _ => 1) 0 (fun _ => "h") 11 "t.gpx" wDoc 2 "u"
        (uploadTrack (fun _ _ => 1) 0 (fun _ => "h") 10 "t.gpx" wDoc 1 "u"
          wUploadState).2).1.map TrackUploadResult.duplicate
      = Except.ok false)
    ∧ ((uploadTrack (fun _ _ => 1) 0 (fun _ => "h") 10 "t.gpx" wDoc 1 "u"
          wUploadState).2.blobs.length = 1
      ∧ (uploadTrack (fun _ _ => 1) 0 (fun _ => "h") 11 "t.gpx" wDoc 2 "u"
          (uploadTrack (fun _ _ => 1) 0 (fun _ => "h") 10 "t.gpx" wDoc 1 "u"
            wUploadState).2).2.blobs.length = 1
      ∧ (uploadTrack (fun _ _ => 1) 0 (fun _ => "h") 11 "t.gpx" wDoc 2 "u"
          (uploadTrack (fun _ _ => 1) 0 (fun _ => "h") 10 "t.gpx" wDoc 1 "u"
            wUploadState).2).2.db.tracks.length = 2) := by
  exact ⟨rfl, rfl, rfl, by decide, by decide, by decide⟩

/-! ## Blob storage (`services/storage_service.py`)

`store_gpx`, `load_gpx` and `delete_gpx` as implemented take only the
content hash: the file path is `self.storage_path / f"{gpx_hash}.gpx"`,
with no user component.  (Their callers — `upload_track`, the delete
routes, and `tests/test_track_service.py`, which asserts the path
`{user_id}_{gpx_hash}.gpx` — all pass a `user_id` first argument that this
signature does not accept.)  The storage directory is modelled as a list of
`(path, bytes)` files. -/

/-- The path `store_gpx`/`load_gpx`/`delete_gpx` compute for a hash:
`f"{gpx_hash}.gpx"`. -/
def storeGpxPath (gpxHash : String) : String := gpxHash ++ ".gpx"

/-- `StorageService.store_gpx`: write only when no file exists at the
path. -/
def storeGpx (fs : List (String × List Nat)) (gpxHash : String)
    (content : List Nat) : List (String × List Nat) :=
  if fs.any fun f => f.1 == storeGpxPath gpxHash then fs
  else (storeGpxPath gpxHash, content) :: fs

/-- `StorageService.load_gpx`. -/
def loadGpx (fs : List (String × List Nat)) (gpxHash : String) :
    Option (List Nat) :=
  (fs.find? fun f => f.1 == storeGpxPath gpxHash).map Prod.snd

/-- `StorageService.delete_gpx`: `(removed anything?, new directory)`. -/
def deleteGpx (fs : List (String × List Nat)) (gpxHash : String) :
    Bool × List (String × List Nat) :=
  (fs.any fun f => f.1 == storeGpxPath gpxHash,
    fs.filter fun f => !(f.1 == storeGpxPath gpxHash))

/-- C4 (code evaluated at the failing input): the store is first-writer-wins
and idempotent per *hash* — a second `store_gpx` with the same hash is a
no-op and `load_gpx` returns the bytes stored first — but its key carries
no `user_id`: the path for hash `"h"` is `"h.gpx"`, not
`"{user_id}_h.gpx"`, so the writes two different users would issue for the
same hash collide on one file (here bytes `[1]` from the first call shadow
`[2]` from the second). -/
theorem store_gpx_keyed_by_hash_only :
    storeGpx (storeGpx [] "h" [1]) "h" [2] = storeGpx [] "h" [1]
    ∧ loadGpx (storeGpx (storeGpx [] "h" [1]) "h" [2]) "h" = some [1]
    ∧ storeGpxPath "h" = "h.gpx"
    ∧ storeGpxPath "h" ≠ "u" ++ "_" ++ "h" ++ ".gpx" := by
  exact ⟨by decide, by decide, by decide, by decide⟩

/-! ## Content addressing (`StorageService.calculate_hash` /
`StorageService._minify_gpx`, storage_service.py lines 12-20)

`_minify_gpx` decodes the upload as UTF-8 text, runs
`re.sub(r">\s+<", "><", text)` — collapsing a span between `>` and `<` only
when it consists entirely of whitespace — then `text.strip()`, and
re-encodes; `calculate_hash` is the SHA-256 hex digest of the minified
bytes.  Decoded text is modelled as `List Char`; `\s` is modelled by the
ASCII whitespace class (space, `\t`, `\n`, `\r`, `\x0b`, `\x0c`). -/

/-- Python's `\s` (ASCII part). -/
def isPyWs (c : Char) : Bool :=
  c == ' ' || c == '\t' || c == '\n' || c == '\r' || c == '\x0b' || c == '\x0c'

/-- `re.sub(r">\s+<", "><", text)`: a left-to-right scan; at a `>` followed
by one or more whitespace characters and then a `<`, the whitespace is
dropped and the scan resumes after the `<`. -/
def collapseInterTag : List Char → List Char
  | [] => []
  | c :: rest =>
    if c = '>' then
      if rest.takeWhile isPyWs ≠ [] ∧ (rest.dropWhile isPyWs).head? = some '<'
      then '>' :: '<' :: collapseInterTag (rest.dropWhile isPyWs).tail
      else '>' :: collapseInterTag rest
    else c :: collapseInterTag rest
  termination_by l => l.length
  decreasing_by
    · simp only [List.length_cons]
      have h1 : (rest.dropWhile isPyWs).length ≤ rest.length :=
        (List.dropWhile_sublist isPyWs).length_le
      have h2 := List.length_tail (rest.dropWhile isPyWs)
      omega
    · simp [List.length_cons]
    · simp [List.length_cons]

/-- `str.strip()` for whitespace: drop leading, then trailing. -/
def pyStrip (cs : List Char) : List Char :=
  ((cs.dropWhile isPyWs).reverse.dropWhile isPyWs).reverse

/-- `StorageService._minify_gpx` on decoded text. -/
def minifyGpx (cs : List Char) : List Char :=
  pyStrip (collapseInterTag cs)

/-- The claim's normalisation, taken from its words: remove every
whitespace character occurring strictly between a `>` and the next `<`
(whether or not other characters share the span), and trim the ends.  The
`Bool` argument tracks being between a `>` and the next `<`. -/
def dropGapWs : Bool → List Char → List Char
  | _, [] => []
  | _, '>' :: r => '>' :: dropGapWs true r
  | _, '<' :: r => '<' :: dropGapWs false r
  | true, c :: r => if isPyWs c then dropGapWs true r else c :: dropGapWs true r
  | false, c :: r => c :: dropGapWs false r

/-- Normal form of a document under the claim's reading of the
whitespace rule. -/
def specNormalize (cs : List Char) : List Char :=
  pyStrip (dropGapWs false cs)

theorem takeWhile_append_not (p : Char → Bool) (w : List Char) (d : Char)
    (r : List Char) (hw : ∀ c ∈ w, p c = true) (hd : p d = false) :
    (w ++ d :: r).takeWhile p = w ∧ (w ++ d :: r).dropWhile p = d :: r := by
  induction w with
  | nil => simp [List.takeWhile_cons, List.dropWhile_cons, hd]
  | cons c w' ih =>
    have hc : p c = true := hw c (by simp)
    have ih' := ih fun x hx => hw x (by simp [hx])
    simp only [List.cons_append, List.takeWhile_cons, List.dropWhile_cons, hc,
      if_true]
    exact ⟨by rw [ih'.1], ih'.2⟩

theorem collapse_no_gt (w : List Char) (hw : ∀ c ∈ w, c ≠ '>') (r : List Char) :
    collapseInterTag (w ++ r) = w ++ collapseInterTag r := by
  induction w with
  | nil => simp
  | cons c w' ih =>
    have hc : c ≠ '>' := hw c (by simp)
    rw [List.cons_append, collapseInterTag, if_neg hc]
    rw [ih fun x hx => hw x (by simp [hx]), List.cons_append]

theorem collapseInterTag_nil : collapseInterTag [] = [] := by
  rw [collapseInterTag]

theorem collapse_gap_nil (ws B : List Char) (hws : ∀ c ∈ ws, isPyWs c = true) :
    collapseInterTag ('>' :: (ws ++ '<' :: B)) = '>' :: '<' :: collapseInterTag B := by
  have hdec := takeWhile_append_not isPyWs ws '<' B hws (by decide)
  rw [collapseInterTag, if_pos rfl]
  by_cases hne : ws = []
  · subst hne
    rw [if_neg]
    · simp only [List.nil_append]
      rw [collapseInterTag, if_neg (by decide)]
    · rw [hdec.1]
      simp
  · rw [if_pos ⟨by rw [hdec.1]; exact hne, by rw [hdec.2]; rfl⟩, hdec.2]
    simp only [List.tail_cons]

theorem collapse_gap_aux (ws B : List Char) (hws : ∀ c ∈ ws, isPyWs c = true) :
    ∀ (n : Nat) (A : List Char), A.length ≤ n →
      collapseInterTag (A ++ '>' :: (ws ++ '<' :: B)) =
        collapseInterTag A ++ '>' :: '<' :: collapseInterTag B := by
  intro n
  induction n with
  | zero =>
    intro A hA
    have hAnil : A = [] := List.eq_nil_of_length_eq_zero (by omega)
    subst hAnil
    rw [List.nil_append, collapseInterTag_nil, List.nil_append]
    exact collapse_gap_nil ws B hws
  | succ n ih =>
    intro A hA
    match A, hA with
    | [], _ =>
      rw [List.nil_append, collapseInterTag_nil, List.nil_append]
      exact collapse_gap_nil ws B hws
    | a :: A', hA =>
      by_cases ha : a = '>'
      · subst ha
        by_cases hA' : A'.dropWhile isPyWs = []
        · -- `A'` is wholly whitespace: the scan runs past it without a match
          have hall : ∀ c ∈ A', isPyWs c = true := List.dropWhile_eq_nil_iff.mp hA'
          have htake : A'.takeWhile isPyWs = A' := by
            have h0 := List.takeWhile_append_dropWhile isPyWs A'
            rw [hA', List.append_nil] at h0
            exact h0
          have hngt : ∀ c ∈ A', c ≠ '>' := by
            intro c hc heq
            have h1 := hall c hc
            rw [heq] at h1
            exact absurd h1 (by decide)
          have hdecomp := takeWhile_append_not isPyWs A' '>'
            (ws ++ '<' :: B) hall (by decide)
          have hcollA : collapseInterTag A' = A' := by
            have h3 := collapse_no_gt A' hngt []
            rw [List.append_nil, collapseInterTag_nil, List.append_nil] at h3
            exact h3
          have hcndL : ¬((A' ++ '>' :: (ws ++ '<' :: B)).takeWhile isPyWs ≠ []
              ∧ ((A' ++ '>' :: (ws ++ '<' :: B)).dropWhile isPyWs).head?
                  = some '<') := by
            rw [hdecomp.2]
            rintro ⟨-, hcontr⟩
            simp at hcontr
          have hcndR : ¬(A'.takeWhile isPyWs ≠ []
              ∧ ((A'.dropWhile isPyWs).head? = some '<')) := by
            rw [hA']
            rintro ⟨-, hcontr⟩
            simp at hcontr
          have hL : collapseInterTag (('>' :: A') ++ '>' :: (ws ++ '<' :: B))
              = '>' :: (A' ++ '>' :: '<' :: collapseInterTag B) := by
            rw [List.cons_append, collapseInterTag, if_pos rfl, if_neg hcndL,
              collapse_no_gt A' hngt ('>' :: (ws ++ '<' :: B)),
              collapse_gap_nil ws B hws]
          have hR : collapseInterTag ('>' :: A') = '>' :: A' := by
            rw [collapseInterTag, if_pos rfl, if_neg hcndR, hcollA]
          rw [hL, hR]
          simp
        · -- `A'` starts with some whitespace and then a non-whitespace `d`
          obtain ⟨d, r', hdr⟩ : ∃ d r', A'.dropWhile isPyWs = d :: r' := by
            cases h : A'.dropWhile isPyWs with
            | nil => exact absurd h hA'
            | cons d r' => exact ⟨d, r', rfl⟩
          have hd : isPyWs d = false := by
            have h1 := List.head?_dropWhile_not isPyWs A'
            rw [hdr] at h1
            simpa using h1
          have hwA : ∀ c ∈ A'.takeWhile isPyWs, isPyWs c = true :=
            fun c hc => List.mem_takeWhile_imp hc
          have hsplit : A'.takeWhile isPyWs ++ d :: r' = A' := by
            rw [← hdr]
            exact List.takeWhile_append_dropWhile isPyWs A'
          have hlenA' : A'.length ≤ n := by
            simp only [List.length_cons] at hA
            omega
          have hlenr' : r'.length ≤ n := by
            have h4 := congrArg List.length hsplit
            simp only [List.length_append, List.length_cons] at h4
            omega
          have hdecomp := takeWhile_append_not isPyWs (A'.takeWhile isPyWs) d
            (r' ++ '>' :: (ws ++ '<' :: B)) hwA hd
          have hApp : A' ++ '>' :: (ws ++ '<' :: B)
              = A'.takeWhile isPyWs ++ d :: (r' ++ '>' :: (ws ++ '<' :: B)) := by
            conv_lhs => rw [← hsplit]
            simp [List.append_assoc]
          by_cases hcond : A'.takeWhile isPyWs ≠ [] ∧ d = '<'
          · have hL : collapseInterTag (('>' :: A') ++ '>' :: (ws ++ '<' :: B))
                = '>' :: '<' :: (collapseInterTag r'
                    ++ '>' :: '<' :: collapseInterTag B) := by
              rw [List.cons_append, collapseInterTag, if_pos rfl, hApp,
                if_pos ⟨by rw [hdecomp.1]; exact hcond.1,
                  by rw [hdecomp.2, hcond.2]; rfl⟩,
                hdecomp.2]
              simp only [List.tail_cons]
              rw [ih r' hlenr']
            have hR : collapseInterTag ('>' :: A')
                = '>' :: '<' :: collapseInterTag r' := by
              rw [collapseInterTag, if_pos rfl,
                if_pos ⟨hcond.1, by rw [hdr, hcond.2]; rfl⟩, hdr]
              simp only [List.tail_cons]
            rw [hL, hR]
            simp
          · have hcndL : ¬((A' ++ '>' :: (ws ++ '<' :: B)).takeWhile isPyWs ≠ []
                ∧ ((A' ++ '>' :: (ws ++ '<' :: B)).dropWhile isPyWs).head?
                    = some '<') := by
              rw [hApp, hdecomp.1, hdecomp.2]
              rintro ⟨h1, h2⟩
              simp only [List.head?_cons, Option.some_inj] at h2
              exact hcond ⟨h1, h2⟩
            have hcndR : ¬(A'.takeWhile isPyWs ≠ []
                ∧ ((A'.dropWhile isPyWs).head? = some '<')) := by
              rw [hdr]
              rintro ⟨h1, h2⟩
              simp only [List.head?_cons, Option.some_inj] at h2
              exact hcond ⟨h1, h2⟩
            have hL : collapseInterTag (('>' :: A') ++ '>' :: (ws ++ '<' :: B))
                = '>' :: (collapseInterTag A'
                    ++ '>' :: '<' :: collapseInterTag B) := by
              rw [List.cons_append, collapseInterTag, if_pos rfl, if_neg hcndL,
                ih A' hlenA']
            have hR : collapseInterTag ('>' :: A')
                = '>' :: collapseInterTag A' := by
              rw [collapseInterTag, if_pos rfl, if_neg hcndR]
            rw [hL, hR]
            simp
      · have hlenA' : A'.length ≤ n := by
          simp only [List.length_cons] at hA
          omega
        rw [List.cons_append, collapseInterTag, if_neg ha, ih A' hlenA',
          collapseInterTag, if_neg ha]
        simp

/-- `re.sub(r">\s+<", "><", ·)` erases a whitespace run that spans the whole
gap between a `>` and the next `<`, wherever it occurs. -/
theorem collapse_gap (A ws B : List Char) (hws : ∀ c ∈ ws, isPyWs c = true) :
    collapseInterTag (A ++ '>' :: (ws ++ '<' :: B)) =
      collapseInterTag A ++ '>' :: '<' :: collapseInterTag B :=
  collapse_gap_aux ws B hws A.length A le_rfl

theorem collapse_all_generic (w : List Char) (hw : ∀ c ∈ w, c ≠ '>') :
    collapseInterTag w = w := by
  have h3 := collapse_no_gt w hw []
  rw [List.append_nil, collapseInterTag_nil, List.append_nil] at h3
  exact h3

theorem collapse_trailing_aux (post : List Char)
    (hpost : ∀ c ∈ post, isPyWs c = true) :
    ∀ (n : Nat) (C : List Char), C.length ≤ n →
      collapseInterTag (C ++ post) = collapseInterTag C ++ post := by
  have hpostgt : ∀ c ∈ post, c ≠ '>' := by
    intro c hc heq
    have h1 := hpost c hc
    rw [heq] at h1
    exact absurd h1 (by decide)
  intro n
  induction n with
  | zero =>
    intro C hC
    have hCnil : C = [] := List.eq_nil_of_length_eq_zero (by omega)
    subst hCnil
    rw [List.nil_append, collapseInterTag_nil, List.nil_append]
    exact collapse_all_generic post hpostgt
  | succ n ih =>
    intro C hC
    match C, hC with
    | [], _ =>
      rw [List.nil_append, collapseInterTag_nil, List.nil_append]
      exact collapse_all_generic post hpostgt
    | a :: C', hC =>
      by_cases ha : a = '>'
      · subst ha
        by_cases hC' : C'.dropWhile isPyWs = []
        · -- `C'` wholly whitespace: `C' ++ post` is wholly whitespace too
          have hall : ∀ c ∈ C', isPyWs c = true := List.dropWhile_eq_nil_iff.mp hC'
          have hallapp : ∀ c ∈ C' ++ post, isPyWs c = true := by
            intro c hc
            rcases List.mem_append.mp hc with h | h
            · exact hall c h
            · exact hpost c h
          have hngt : ∀ c ∈ C', c ≠ '>' := by
            intro c hc heq
            have h1 := hall c hc
            rw [heq] at h1
            exact absurd h1 (by decide)
          have hdropapp : (C' ++ post).dropWhile isPyWs = [] :=
            List.dropWhile_eq_nil_iff.mpr hallapp
          have hcndL : ¬((C' ++ post).takeWhile isPyWs ≠ []
              ∧ (((C' ++ post).dropWhile isPyWs).head? = some '<')) := by
            rw [hdropapp]
            rintro ⟨-, hcontr⟩
            simp at hcontr
          have hcndR : ¬(C'.takeWhile isPyWs ≠ []
              ∧ ((C'.dropWhile isPyWs).head? = some '<')) := by
            rw [hC']
            rintro ⟨-, hcontr⟩
            simp at hcontr
          have hngtapp : ∀ c ∈ C' ++ post, c ≠ '>' := by
            intro c hc heq
            have h1 := hallapp c hc
            rw [heq] at h1
            exact absurd h1 (by decide)
          rw [List.cons_append, collapseInterTag, if_pos rfl, if_neg hcndL,
            collapse_all_generic (C' ++ post) hngtapp,
            collapseInterTag, if_pos rfl, if_neg hcndR,
            collapse_all_generic C' hngt]
          simp
        · obtain ⟨d, r', hdr⟩ : ∃ d r', C'.dropWhile isPyWs = d :: r' := by
            cases h : C'.dropWhile isPyWs with
            | nil => exact absurd h hC'
            | cons d r' => exact ⟨d, r', rfl⟩
          have hd : isPyWs d = false := by
            have h1 := List.head?_dropWhile_not isPyWs C'
            rw [hdr] at h1
            simpa using h1
          have hwC : ∀ c ∈ C'.takeWhile isPyWs, isPyWs c = true :=
            fun c hc => List.mem_takeWhile_imp hc
          have hsplit : C'.takeWhile isPyWs ++ d :: r' = C' := by
            rw [← hdr]
            exact List.takeWhile_append_dropWhile isPyWs C'
          have hlenC' : C'.length ≤ n := by
            simp only [List.length_cons] at hC
            omega
          have hlenr' : r'.length ≤ n := by
            have h4 := congrArg List.length hsplit
            simp only [List.length_append, List.length_cons] at h4
            omega
          have hdecomp := takeWhile_append_not isPyWs (C'.takeWhile isPyWs) d
            (r' ++ post) hwC hd
          have hApp : C' ++ post
              = C'.takeWhile isPyWs ++ d :: (r' ++ post) := by
            conv_lhs => rw [← hsplit]
            simp [List.append_assoc]
          by_cases hcond : C'.takeWhile isPyWs ≠ [] ∧ d = '<'
          · have hL : collapseInterTag (('>' :: C') ++ post)
                = '>' :: '<' :: (collapseInterTag r' ++ post) := by
              rw [List.cons_append, collapseInterTag, if_pos rfl, hApp,
                if_pos ⟨by rw [hdecomp.1]; exact hcond.1,
                  by rw [hdecomp.2, hcond.2]; rfl⟩,
                hdecomp.2]
              simp only [List.tail_cons]
              rw [ih r' hlenr']
            have hR : collapseInterTag ('>' :: C')
                = '>' :: '<' :: collapseInterTag r' := by
              rw [collapseInterTag, if_pos rfl,
                if_pos ⟨hcond.1, by rw [hdr, hcond.2]; rfl⟩, hdr]
              simp only [List.tail_cons]
            rw [hL, hR]
            simp
          · have hcndL : ¬((C' ++ post).takeWhile isPyWs ≠ []
                ∧ (((C' ++ post).dropWhile isPyWs).head? = some '<')) := by
              rw [hApp, hdecomp.1, hdecomp.2]
              rintro ⟨h1, h2⟩
              simp only [List.head?_cons, Option.some_inj] at h2
              exact hcond ⟨h1, h2⟩
            have hcndR : ¬(C'.takeWhile isPyWs ≠ []
                ∧ ((C'.dropWhile isPyWs).head? = some '<')) := by
              rw [hdr]
              rintro ⟨h1, h2⟩
              simp only [List.head?_cons, Option.some_inj] at h2
              exact hcond ⟨h1, h2⟩
            rw [List.cons_append, collapseInterTag, if_pos rfl, if_neg hcndL,
              ih C' hlenC', collapseInterTag, if_pos rfl, if_neg hcndR]
            simp
      · have hlenC' : C'.length ≤ n := by
          simp only [List.length_cons] at hC
          omega
        rw [List.cons_append, collapseInterTag, if_neg ha, ih C' hlenC',
          collapseInterTag, if_neg ha]
        simp

/-- Appending trailing whitespace commutes with the regex collapse. -/
theorem collapse_trailing (C post : List Char)
    (hpost : ∀ c ∈ post, isPyWs c = true) :
    collapseInterTag (C ++ post) = collapseInterTag C ++ post :=
  collapse_trailing_aux post hpost C.length C le_rfl

/-- Prepending whitespace (no `>` characters) commutes with the collapse. -/
theorem collapse_leading (pre C : List Char)
    (hpre : ∀ c ∈ pre, isPyWs c = true) :
    collapseInterTag (pre ++ C) = pre ++ collapseInterTag C := by
  apply collapse_no_gt
  intro c hc heq
  have h1 := hpre c hc
  rw [heq] at h1
  exact absurd h1 (by decide)

theorem dropWhile_ws_append (p : Char → Bool) (pre y : List Char)
    (h : ∀ c ∈ pre, p c = true) : (pre ++ y).dropWhile p = y.dropWhile p := by
  induction pre with
  | nil => simp
  | cons c pre' ih =>
    have hc := h c (by simp)
    rw [List.cons_append, List.dropWhile_cons, if_pos hc]
    exact ih fun x hx => h x (by simp [hx])

theorem dropWhile_append_of_ne_nil (p : Char → Bool) (y post : List Char)
    (h : y.dropWhile p ≠ []) :
    (y ++ post).dropWhile p = y.dropWhile p ++ post := by
  induction y with
  | nil => simp at h
  | cons c y' ih =>
    by_cases hc : p c
    · have h' : y'.dropWhile p ≠ [] := by
        rwa [List.dropWhile_cons, if_pos hc] at h
      rw [List.cons_append, List.dropWhile_cons, if_pos hc, ih h',
        List.dropWhile_cons, if_pos hc]
    · rw [List.cons_append, List.dropWhile_cons, if_neg hc,
        List.dropWhile_cons, if_neg hc, List.cons_append]

theorem pyStrip_prepend (pre y : List Char)
    (hpre : ∀ c ∈ pre, isPyWs c = true) :
    pyStrip (pre ++ y) = pyStrip y := by
  unfold pyStrip
  rw [dropWhile_ws_append isPyWs pre y hpre]

theorem pyStrip_append (y post : List Char)
    (hpost : ∀ c ∈ post, isPyWs c = true) :
    pyStrip (y ++ post) = pyStrip y := by
  by_cases hy : y.dropWhile isPyWs = []
  · have hall : ∀ c ∈ y, isPyWs c = true := List.dropWhile_eq_nil_iff.mp hy
    have happ : (y ++ post).dropWhile isPyWs = [] := by
      apply List.dropWhile_eq_nil_iff.mpr
      intro c hc
      rcases List.mem_append.mp hc with h | h
      · exact hall c h
      · exact hpost c h
    unfold pyStrip
    rw [happ, hy]
  · unfold pyStrip
    rw [dropWhile_append_of_ne_nil isPyWs y post hy, List.reverse_append,
      dropWhile_ws_append isPyWs post.reverse (y.dropWhile isPyWs).reverse
        (fun c hc => hpost c (List.mem_reverse.mp hc))]

/-- `_minify_gpx` is invariant under re-indentation: extra leading/trailing
whitespace and a whitespace run spanning an entire `>`…`<` gap minify away. -/
theorem minify_gap_invariant (pre A ws B post : List Char)
    (hws : ∀ c ∈ ws, isPyWs c = true)
    (hpre : ∀ c ∈ pre, isPyWs c = true)
    (hpost : ∀ c ∈ post, isPyWs c = true) :
    minifyGpx (pre ++ (A ++ '>' :: (ws ++ '<' :: B)) ++ post) =
      minifyGpx (A ++ '>' :: '<' :: B) := by
  unfold minifyGpx
  have hgap0 : collapseInterTag (A ++ '>' :: '<' :: B)
      = collapseInterTag A ++ '>' :: '<' :: collapseInterTag B := by
    have h0 := collapse_gap A [] B (by simp)
    simpa using h0
  rw [collapse_trailing (pre ++ (A ++ '>' :: (ws ++ '<' :: B))) post hpost,
    collapse_leading pre (A ++ '>' :: (ws ++ '<' :: B)) hpre,
    collapse_gap A ws B hws, hgap0,
    pyStrip_append _ post hpost, pyStrip_prepend pre _ hpre]

/-! ## SHA-256 (`hashlib.sha256(minified).hexdigest()`)

A byte-level implementation of FIPS 180-4 SHA-256 over `List Nat` (each
entry a byte), with 32-bit words as `Nat` values reduced mod `2^32`. -/

/-- Right rotation of a 32-bit word. -/
def rotr32 (n x : Nat) : Nat :=
  ((x >>> n) ||| (x <<< (32 - n))) % 4294967296

/-- The 64 SHA-256 round constants. -/
def sha256K : List Nat :=
  [1116352408, 1899447441, 3049323471, 3921009573,
   961987163, 1508970993, 2453635748, 2870763221,
   3624381080, 310598401, 607225278, 1426881987,
   1925078388, 2162078206, 2614888103, 3248222580,
   3835390401, 4022224774, 264347078, 604807628,
   770255983, 1249150122, 1555081692, 1996064986,
   2554220882, 2821834349, 2952996808, 3210313671,
   3336571891, 3584528711, 113926993, 338241895,
   666307205, 773529912, 1294757372, 1396182291,
   1695183700, 1986661051, 2177026350, 2456956037,
   2730485921, 2820302411, 3259730800, 3345764771,
   3516065817, 3600352804, 4094571909, 275423344,
   430227734, 506948616, 659060556, 883997877,
   958139571, 1322822218, 1537002063, 1747873779,
   1955562222, 2024104815, 2227730452, 2361852424,
   2428436474, 2756734187, 3204031479, 3329325298]

/-- The initial SHA-256 state. -/
def sha256H0 : List Nat :=
  [1779033703, 3144134277, 1013904242, 2773480762,
   1359893119, 2600822924, 528734635, 1541459225]

/-- `k` bytes, big-endian, of a number. -/
def toBytesBE : Nat → Nat → List Nat
  | 0, _ => []
  | k + 1, n => toBytesBE k (n / 256) ++ [n % 256]

/-- Merkle–Damgård padding: `0x80`, zeros to 56 mod 64, 8-byte bit length. -/
def sha256pad (msg : List Nat) : List Nat :=
  msg ++ [0x80] ++ List.replicate ((119 - (msg.length % 64)) % 64) 0
    ++ toBytesBE 8 (msg.length * 8)

/-- Big-endian 32-bit words of a byte stream. -/
def wordsOfBytes : List Nat → List Nat
  | b0 :: b1 :: b2 :: b3 :: rest =>
    (((b0 * 256 + b1) * 256 + b2) * 256 + b3) :: wordsOfBytes rest
  | _ => []

/-- 16-word blocks of a word stream (the padded input is always a multiple
of 16 words, so the catch-all for a short trailing group is unreachable). -/
def toBlocks : List Nat → List (List Nat)
  | [] => []
  | w0 :: w1 :: w2 :: w3 :: w4 :: w5 :: w6 :: w7 :: w8 :: w9 :: w10 :: w11
      :: w12 :: w13 :: w14 :: w15 :: rest =>
    [w0, w1, w2, w3, w4, w5, w6, w7, w8, w9, w10, w11, w12, w13, w14, w15]
      :: toBlocks rest
  | l => [l]

/-- Extend a 16-word block to the 64-word message schedule. -/
def extendSchedule (block : List Nat) : List Nat :=
  (List.range 48).foldl
    (fun acc _ =>
      let n := acc.length
      acc ++ [(acc.getD (n - 16) 0
        + (rotr32 7 (acc.getD (n - 15) 0) ^^^ rotr32 18 (acc.getD (n - 15) 0)
            ^^^ (acc.getD (n - 15) 0 >>> 3))
        + acc.getD (n - 7) 0
        + (rotr32 17 (acc.getD (n - 2) 0) ^^^ rotr32 19 (acc.getD (n - 2) 0)
            ^^^ (acc.getD (n - 2) 0 >>> 10))) % 4294967296])
    block

/-- One SHA-256 compression round over the eight-word working state. -/
def sha256Round (w : List Nat)
    (st : Nat × Nat × Nat × Nat × Nat × Nat × Nat × Nat) (i : Nat) :
    Nat × Nat × Nat × Nat × Nat × Nat × Nat × Nat :=
  match st with
  | (a, b, c, d, e, f, g, h) =>
    let s1 := rotr32 6 e ^^^ rotr32 11 e ^^^ rotr32 25 e
    let chv := (e &&& f) ^^^ ((e ^^^ 0xffffffff) &&& g)
    let t1 := (h + s1 + chv + sha256K.getD i 0 + w.getD i 0) % 4294967296
    let s0 := rotr32 2 a ^^^ rotr32 13 a ^^^ rotr32 22 a
    let majv := (a &&& b) ^^^ (a &&& c) ^^^ (b &&& c)
    let t2 := (s0 + majv) % 4294967296
    ((t1 + t2) % 4294967296, a, b, c, (d + t1) % 4294967296, e, f, g)

/-- Compress one 16-word block into the running hash state. -/
def compressBlock (h : List Nat) (block : List Nat) : List Nat :=
  let w := extendSchedule block
  match (List.range 64).foldl (sha256Round w)
    (h.getD 0 0, h.getD 1 0, h.getD 2 0, h.getD 3 0,
     h.getD 4 0, h.getD 5 0, h.getD 6 0, h.getD 7 0) with
  | (a, b, c, d, e, f, g, hh) =>
    [(h.getD 0 0 + a) % 4294967296, (h.getD 1 0 + b) % 4294967296,
     (h.getD 2 0 + c) % 4294967296, (h.getD 3 0 + d) % 4294967296,
     (h.getD 4 0 + e) % 4294967296, (h.getD 5 0 + f) % 4294967296,
     (h.getD 6 0 + g) % 4294967296, (h.getD 7 0 + hh) % 4294967296]

/-- SHA-256 digest (32 bytes) of a byte string. -/
def sha256 (msg : List Nat) : List Nat :=
  (((toBlocks (wordsOfBytes (sha256pad msg))).foldl compressBlock
      sha256H0).map (toBytesBE 4)).flatten

/-- One hexadecimal digit. -/
def hexChar (n : Nat) : Char :=
  if n < 10 then Char.ofNat ('0'.toNat + n)
  else Char.ofNat ('a'.toNat + (n - 10))

/-- Two lowercase hex digits of a byte. -/
def byteToHex (b : Nat) : List Char :=
  [hexChar (b / 16 % 16), hexChar (b % 16)]

/-- `hexdigest()` of a byte list. -/
def hexDigest (bytes : List Nat) : String :=
  String.mk ((bytes.map byteToHex).flatten)

/-- UTF-8 encoding of one character. -/
def utf8EncodeChar (c : Char) : List Nat :=
  let n := c.toNat
  if n < 0x80 then [n]
  else if n < 0x800 then
    [0xc0 ||| (n >>> 6), 0x80 ||| (n &&& 0x3f)]
  else if n < 0x10000 then
    [0xe0 ||| (n >>> 12), 0x80 ||| ((n >>> 6) &&& 0x3f), 0x80 ||| (n &&& 0x3f)]
  else
    [0xf0 ||| (n >>> 18), 0x80 ||| ((n >>> 12) &&& 0x3f),
     0x80 ||| ((n >>> 6) &&& 0x3f), 0x80 ||| (n &&& 0x3f)]

/-- UTF-8 encoding of a character list (`str.encode("utf-8")`). -/
def utf8Encode (cs : List Char) : List Nat :=
  (cs.map utf8EncodeChar).flatten

/-- `StorageService.calculate_hash`: SHA-256 hex digest of the minified
bytes (the upload's bytes are decoded as UTF-8 text, minified, and
re-encoded before hashing). -/
def calculateHash (text : List Char) : String :=
  hexDigest (sha256 (utf8Encode (minifyGpx text)))

theorem toBytesBE_length (k n : Nat) : (toBytesBE k n).length = k := by
  induction k generalizing n with
  | zero => rfl
  | succ k ih => simp [toBytesBE, ih]

theorem compressBlock_length (h block : List Nat) :
    (compressBlock h block).length = 8 := by
  rw [compressBlock]
  rcases (List.range 64).foldl (sha256Round (extendSchedule block))
    (h.getD 0 0, h.getD 1 0, h.getD 2 0, h.getD 3 0,
     h.getD 4 0, h.getD 5 0, h.getD 6 0, h.getD 7 0) with
    ⟨a, b, c, d, e, f, g, hh⟩
  simp

theorem foldl_compressBlock_length (blocks : List (List Nat)) (h : List Nat)
    (hh : h.length = 8) : (blocks.foldl compressBlock h).length = 8 := by
  induction blocks generalizing h with
  | nil => simpa using hh
  | cons b rest ih => exact ih _ (compressBlock_length h b)

theorem flatten_const_length {α β : Type} (f : α → List β) (k : Nat)
    (L : List α) (h : ∀ x ∈ L, (f x).length = k) :
    ((L.map f).flatten).length = L.length * k := by
  induction L with
  | nil => simp
  | cons a rest ih =>
    simp only [List.map_cons, List.flatten_cons, List.length_append,
      List.length_cons, h a (by simp), ih fun x hx => h x (by simp [hx])]
    ring

theorem sha256_length (msg : List Nat) : (sha256 msg).length = 32 := by
  rw [sha256]
  rw [flatten_const_length (toBytesBE 4) 4 _ fun x _ => toBytesBE_length 4 x]
  rw [foldl_compressBlock_length _ sha256H0 (by rfl)]

/-- The sixteen lowercase hexadecimal digits. -/
def hexDigitChars : List Char := "0123456789abcdef".toList

theorem hexChar_mem (n : Nat) (h : n < 16) : hexChar n ∈ hexDigitChars := by
  revert h
  revert n
  decide

theorem byteToHex_mem (b : Nat) : ∀ ch ∈ byteToHex b, ch ∈ hexDigitChars := by
  intro ch hch
  simp only [byteToHex, List.mem_cons, List.not_mem_nil, or_false] at hch
  rcases hch with h | h <;> subst h <;>
    exact hexChar_mem _ (Nat.mod_lt _ (by norm_num))

theorem hexDigest_length (bytes : List Nat) :
    (hexDigest bytes).length = 2 * bytes.length := by
  show ((bytes.map byteToHex).flatten).length = 2 * bytes.length
  rw [flatten_const_length byteToHex 2 bytes fun x _ => rfl]
  ring

theorem hexDigest_mem (bytes : List Nat) :
    ∀ ch ∈ (hexDigest bytes).toList, ch ∈ hexDigitChars := by
  intro ch hch
  have hch' : ch ∈ (bytes.map byteToHex).flatten := hch
  rcases List.mem_flatten.mp hch' with ⟨l, hl, hcl⟩
  rcases List.mem_map.mp hl with ⟨b, -, hb⟩
  exact byteToHex_mem b ch (hb ▸ hcl)

/-- C7 (amended): `calculate_hash` is stable under re-indentation — extra
leading/trailing whitespace and a whitespace run forming the *entire* span
between a `>` and the next `<` do not change the hash — and the value is
the 64-lowercase-hex-character SHA-256 digest of the normalized
(minified) bytes, not of the original bytes. -/
theorem calculate_hash_whitespace (pre A ws B post : List Char)
    (hws : ∀ c ∈ ws, isPyWs c = true)
    (hpre : ∀ c ∈ pre, isPyWs c = true)
    (hpost : ∀ c ∈ post, isPyWs c = true) :
    calculateHash (pre ++ (A ++ '>' :: (ws ++ '<' :: B)) ++ post)
      = calculateHash (A ++ '>' :: '<' :: B)
    ∧ calculateHash (pre ++ (A ++ '>' :: (ws ++ '<' :: B)) ++ post)
      = hexDigest (sha256 (utf8Encode
          (minifyGpx (pre ++ (A ++ '>' :: (ws ++ '<' :: B)) ++ post))))
    ∧ (calculateHash (pre ++ (A ++ '>' :: (ws ++ '<' :: B)) ++ post)).length = 64
    ∧ ∀ ch ∈ (calculateHash
        (pre ++ (A ++ '>' :: (ws ++ '<' :: B)) ++ post)).toList,
      ch ∈ hexDigitChars := by
  refine ⟨?_, rfl, ?_, ?_⟩
  · show hexDigest _ = hexDigest _
    rw [minify_gap_invariant pre A ws B post hws hpre hpost]
  · show (hexDigest _).length = 64
    rw [hexDigest_length, sha256_length]
  · exact hexDigest_mem _

/-- Witness for `calculate_hash_whitespace`: a pretty-printed
`<gpx> </gpx>` with leading/trailing whitespace against its minified
form. -/
theorem calculate_hash_whitespace_witness :
    ((∀ c ∈ [' ', '\n'], isPyWs c = true)
      ∧ (∀ c ∈ [' '], isPyWs c = true)
      ∧ (∀ c ∈ ['\n'], isPyWs c = true))
    ∧ (calculateHash ([' '] ++ ("<gpx".toList ++ '>' :: ([' ', '\n'] ++ '<' :: "/gpx>".toList)) ++ ['\n'])
        = calculateHash ("<gpx".toList ++ '>' :: '<' :: "/gpx>".toList)
    ∧ calculateHash ([' '] ++ ("<gpx".toList ++ '>' :: ([' ', '\n'] ++ '<' :: "/gpx>".toList)) ++ ['\n'])
        = hexDigest (sha256 (utf8Encode
            (minifyGpx ([' '] ++ ("<gpx".toList ++ '>' :: ([' ', '\n'] ++ '<' :: "/gpx>".toList)) ++ ['\n']))))
    ∧ (calculateHash ([' '] ++ ("<gpx".toList ++ '>' :: ([' ', '\n'] ++ '<' :: "/gpx>".toList)) ++ ['\n'])).length = 64
    ∧ ∀ ch ∈ (calculateHash ([' '] ++ ("<gpx".toList ++ '>' :: ([' ', '\n'] ++ '<' :: "/gpx>".toList)) ++ ['\n'])).toList,
        ch ∈ hexDigitChars) :=
  ⟨⟨by decide, by decide, by decide⟩,
    calculate_hash_whitespace [' '] "<gpx".toList [' ', '\n'] "/gpx>".toList
      ['\n'] (by decide) (by decide) (by decide)⟩

set_option maxRecDepth 1000000 in
/-- Counterexample to C7 as stated: `"<a>x y</a>"` and `"<a>x  y</a>"`
differ only in whitespace occurring strictly between a `>` and the next `<`
(their normal forms under the claim's whitespace rule coincide), yet the
regex `>\s+<` collapses nothing in either — the whitespace shares its span
with text content — so the two minified byte strings, and hence the
SHA-256 digests `calculate_hash` returns, differ. -/
theorem calculate_hash_claim_counterexample :
    specNormalize "<a>x y</a>".toList = specNormalize "<a>x  y</a>".toList
    ∧ minifyGpx "<a>x y</a>".toList = "<a>x y</a>".toList
    ∧ minifyGpx "<a>x  y</a>".toList = "<a>x  y</a>".toList
    ∧ calculateHash "<a>x y</a>".toList ≠ calculateHash "<a>x  y</a>".toList := by
  have h1 : minifyGpx "<a>x y</a>".toList = "<a>x y</a>".toList := by
    simp [minifyGpx, pyStrip, collapseInterTag, isPyWs]
  have h2 : minifyGpx "<a>x  y</a>".toList = "<a>x  y</a>".toList := by
    simp [minifyGpx, pyStrip, collapseInterTag, isPyWs]
  refine ⟨by decide, h1, h2, ?_⟩
  show hexDigest _ ≠ hexDigest _
  rw [h1, h2]
  decide
